import Mathlib

/-!
Distributed crawler: coordinator queue engine, URL canonicalisation and the
crawl loop of the worker.

A shallow embedding of the coordinator (`src/src/server.cpp`), of the URL
helpers it borrows from `src/src/HtmlParser.cpp` and of the worker
(`src/src/worker.cpp`), followed by theorems about them.

Conventions of the embedding:

* a `std::string` is a list of characters (`Str`), one `Char` per byte;
* `std::string::npos` is `none`, a found position is `some i`;
* a `std::set<std::string>` is the list of its elements in iteration order
  (ascending, duplicate free);
* a `std::map<std::string, int>` is the list of its entries in key order;
* a `std::queue<std::string>` is a list whose head is the front of the queue;
* an `int` is an integer; the counters of the worker registry, which a run can
  drive to `INT_MAX`, are incremented with the 32-bit two's-complement
  wrap-around of the compiled program (`wrapInt`), where C++ leaves the
  overflow undefined; a `size_t` is a natural number below `2 ^ 64`, with
  wrap-around;
* an exception that nothing catches is the result `none`;
* logging and the mutex are not part of the state;
* the socket and the crawl of a page are the environment of the worker: a
  function of the worker takes the outcome of each of its exchanges with the
  coordinator, and of the crawl, as an argument.
-/

namespace Crawler

/-- A `std::string`, byte by byte. -/
abbrev Str := List Char

/-! ## `std::string` primitives -/

/-- `s.find(pat)`: the first position at which `pat` occurs in `s`. -/
def strFind (pat : Str) : Str → Option Nat
  | [] => if pat = [] then some 0 else none
  | c :: cs =>
    if pat.isPrefixOf (c :: cs) then some 0
    else (strFind pat cs).map (· + 1)

/-- `s.find(pat, pos)`: the first position `≥ pos` at which `pat` occurs. -/
def strFindFrom (pat : Str) (s : Str) (pos : Nat) : Option Nat :=
  if s.length < pos then none
  else (strFind pat (s.drop pos)).map (· + pos)

/-- `s.substr(pos, n)` for `pos ≤ s.size()`. -/
def substr (s : Str) (pos n : Nat) : Str := (s.drop pos).take n

/-- `s.substr(pos)` for `pos ≤ s.size()`. -/
def substrFrom (s : Str) (pos : Nat) : Str := s.drop pos

/-- `s.find(pat) != npos`. -/
def strContains (pat s : Str) : Bool := (strFind pat s).isSome

/-- `std::tolower` on one byte in the default C locale. -/
def tolower (c : Char) : Char := c.toLower

/-- `!s.empty() && s.back() == c`. -/
def endsWithChar (s : Str) (c : Char) : Bool :=
  match s.getLast? with
  | some d => d == c
  | none => false

/-! ## `HtmlParser.cpp` -/

/-- `canonicalize_url`, step 2: drop everything up to and including the first
`://`. -/
def stripProtocol (result : Str) : Str :=
  match strFind "://".toList result with
  | some protocol_pos => substrFrom result (protocol_pos + 3)
  | none => result

/-- `canonicalize_url`, step 3: drop a leading `www.`. -/
def stripWww (result : Str) : Str :=
  if substr result 0 4 = "www.".toList then substrFrom result 4 else result

/-- `canonicalize_url`, step 4: drop one trailing `/`. -/
def stripTrailingSlash (result : Str) : Str :=
  if endsWithChar result '/' then result.dropLast else result

/-- `canonicalize_url`, step 5: cut at the first `#`. -/
def stripAnchor (result : Str) : Str :=
  match strFind ['#'] result with
  | some anchor_pos => substr result 0 anchor_pos
  | none => result

/-- `canonicalize_url`, step 6: cut at the first `?` unless the text contains
`search` or `filter`. -/
def stripQuery (result : Str) : Str :=
  match strFind ['?'] result with
  | some query_pos =>
    if !strContains "search".toList result && !strContains "filter".toList result then
      substr result 0 query_pos
    else result
  | none => result

/-- `canonicalize_url` of `HtmlParser.cpp`. -/
def canonicalize_url (url : Str) : Str :=
  stripQuery (stripAnchor (stripTrailingSlash (stripWww (stripProtocol (url.map tolower)))))

/-! ## Containers -/

/-- `a < b` on `std::string`: lexicographic order on the bytes. -/
def strLt : Str → Str → Bool
  | _, [] => false
  | [], _ :: _ => true
  | a :: as, b :: bs =>
    if a.toNat < b.toNat then true
    else if b.toNat < a.toNat then false
    else strLt as bs

/-- `s.insert(x)` on a `std::set<std::string>`. -/
def setInsert (x : Str) : List Str → List Str
  | [] => [x]
  | y :: ys =>
    if x = y then y :: ys
    else if strLt x y then x :: y :: ys
    else y :: setInsert x ys

/-- `s.erase(x)` on a `std::set<std::string>`. -/
def setErase (x : Str) (s : List Str) : List Str := s.filter (· ≠ x)

/-- `m[k] = v` on a `std::map<std::string, int>`. -/
def mapAssign (k : Str) (v : Int) : List (Str × Int) → List (Str × Int)
  | [] => [(k, v)]
  | e :: es =>
    if k = e.1 then (k, v) :: es
    else if strLt k e.1 then (k, v) :: e :: es
    else e :: mapAssign k v es

/-- `m.erase(k)` on a `std::map<std::string, int>`. -/
def mapErase (k : Str) (m : List (Str × Int)) : List (Str × Int) :=
  m.filter (·.1 ≠ k)

/-- `m.find(k)`: the value stored under `k`, `none` for `m.end()`. -/
def mapFind (k : Str) (m : List (Str × Int)) : Option Int :=
  (m.find? (·.1 = k)).map (·.2)

/-! ## `Book.h`, `Item.h` -/

/-- `struct Book`. -/
structure Book where
  title : Str
  price : Str
  rating : Str
  url : Str
  deriving DecidableEq, Repr

/-- `enum class ItemType`. -/
inductive ItemType
  | BOOK | JOB | PRODUCT | ARTICLE | GENERIC
  deriving DecidableEq, Repr

/-- `class Item`; the `double price` is kept as the exact decimal value. -/
structure Item where
  id : Str
  type : ItemType
  url : Str
  title : Str
  fields : List (Str × Str)
  category : Str
  price : Rat
  rating : Int
  description : Str
  imageUrl : Str
  date : Str
  deriving DecidableEq, Repr

/-! ## `server.cpp`: `UrlQueueManager` -/

/-- The data members of `UrlQueueManager`. -/
structure UrlQueueManager where
  urlQueue : List Str
  processedUrls : List Str
  queuedUrls : List Str
  assignedUrls : List (Str × Int)
  hostname : Str
  collectedBooks : List Book
  collectedItems : List Item
  startUrl : Str
  currentItemType : ItemType
  deriving DecidableEq, Repr

/-- The item type chosen from the host name; `linkedin` is the pattern that
stands for LinkedIn (`linkedin.com/jobs` in the constructor, `linkedin.com` in
`setSeedUrl`). -/
def itemTypeOfHost (linkedin : Str) (host : Str) : ItemType :=
  if strContains "toscrape.com".toList host then ItemType.BOOK
  else if strContains "indeed.com".toList host || strContains linkedin host
      || strContains "monster.com".toList host then ItemType.JOB
  else if strContains "amazon.com".toList host || strContains "ebay.com".toList host
      || strContains "walmart.com".toList host then ItemType.PRODUCT
  else if strContains "medium.com".toList host || strContains "news.".toList host
      || strContains "blog.".toList host then ItemType.ARTICLE
  else ItemType.GENERIC

/-- The constructor `UrlQueueManager(host, start)`: every collection empty. -/
def UrlQueueManager.new (host start : Str) : UrlQueueManager where
  urlQueue := []
  processedUrls := []
  queuedUrls := []
  assignedUrls := []
  hostname := host
  collectedBooks := []
  collectedItems := []
  startUrl := start
  currentItemType := itemTypeOfHost "linkedin.com/jobs".toList host

/-- The manager built by `initUrlQueueManager`, with the default arguments. -/
def UrlQueueManager.default : UrlQueueManager :=
  UrlQueueManager.new "books.toscrape.com".toList "https://books.toscrape.com/".toList

/-- The host name `setSeedUrl` derives from the seed URL. -/
def seedHostname (url : Str) : Str :=
  let protocolEnd := strFind "://".toList url
  let domainStart := match protocolEnd with
    | some p => p + 3
    | none => 0
  match strFindFrom ['/'] url domainStart with
  | some domainEnd => substr url domainStart (domainEnd - domainStart)
  | none => substrFrom url domainStart

/-- `UrlQueueManager::setSeedUrl`. -/
def setSeedUrl (url : Str) (m : UrlQueueManager) : UrlQueueManager :=
  { m with
    startUrl := url
    hostname := seedHostname url
    currentItemType := itemTypeOfHost "linkedin.com".toList (seedHostname url)
    urlQueue := []
    queuedUrls := []
    processedUrls := []
    assignedUrls := []
    collectedBooks := []
    collectedItems := [] }

/-- `UrlQueueManager::addUrl`. -/
def addUrl (url : Str) (m : UrlQueueManager) : UrlQueueManager :=
  let canonical := canonicalize_url url
  if canonical ∈ m.processedUrls then m
  else if canonical ∈ m.queuedUrls then m
  else if strFind m.hostname url = none then m
  else { m with
    urlQueue := m.urlQueue ++ [url]
    queuedUrls := setInsert canonical m.queuedUrls }

/-- One round of the loop of `UrlQueueManager::addUrls`; the state carries the
manager with `addedCount` and `skippedCount`. -/
def addUrlsStep (acc : UrlQueueManager × Nat × Nat) (url : Str) :
    UrlQueueManager × Nat × Nat :=
  let m := acc.1
  let canonical := canonicalize_url url
  if canonical ∈ m.processedUrls ∨ canonical ∈ m.queuedUrls then
    (m, acc.2.1, acc.2.2 + 1)
  else if strFind m.hostname url = none then
    (m, acc.2.1, acc.2.2 + 1)
  else
    ({ m with
        urlQueue := m.urlQueue ++ [url]
        queuedUrls := setInsert canonical m.queuedUrls },
      acc.2.1 + 1, acc.2.2)

/-- `UrlQueueManager::addUrls`, with the two counts it logs. -/
def addUrlsCounted (urls : List Str) (m : UrlQueueManager) :
    UrlQueueManager × Nat × Nat :=
  urls.foldl addUrlsStep (m, 0, 0)

/-- `UrlQueueManager::addUrls`. -/
def addUrls (urls : List Str) (m : UrlQueueManager) : UrlQueueManager :=
  (addUrlsCounted urls m).1

/-- `UrlQueueManager::getNextUrl`: `none` for `false`, otherwise the URL written
to the out-parameter. -/
def getNextUrl (workerId : Int) (m : UrlQueueManager) : Option Str × UrlQueueManager :=
  match m.urlQueue with
  | [] => (none, m)
  | url :: rest =>
    let canonical := canonicalize_url url
    (some url,
      { m with
        urlQueue := rest
        queuedUrls := setErase canonical m.queuedUrls
        assignedUrls :=
          if workerId ≠ -1 then mapAssign url workerId m.assignedUrls
          else m.assignedUrls })

/-- `UrlQueueManager::markProcessed`. -/
def markProcessed (url : Str) (m : UrlQueueManager) : UrlQueueManager :=
  let canonical := canonicalize_url url
  if canonical ∈ m.processedUrls then m
  else { m with
    processedUrls := setInsert canonical m.processedUrls
    queuedUrls :=
      if canonical ∈ m.queuedUrls then setErase canonical m.queuedUrls
      else m.queuedUrls
    assignedUrls := mapErase url m.assignedUrls }

/-- The first loop of `reassignUrlsFromWorker`: the keys held by `workerId`,
in map order. -/
def urlsToReassign (workerId : Int) (m : UrlQueueManager) : List Str :=
  (m.assignedUrls.filter (·.2 = workerId)).map (·.1)

/-- One round of the second loop of `reassignUrlsFromWorker`. -/
def reassignStep (m : UrlQueueManager) (url : Str) : UrlQueueManager :=
  { m with
    assignedUrls := mapErase url m.assignedUrls
    urlQueue := m.urlQueue ++ [url] }

/-- `UrlQueueManager::reassignUrlsFromWorker`. -/
def reassignUrlsFromWorker (workerId : Int) (m : UrlQueueManager) : UrlQueueManager :=
  (urlsToReassign workerId m).foldl reassignStep m

/-- `UrlQueueManager::addSeedUrl`. -/
def addSeedUrl (url : Str) (m : UrlQueueManager) : UrlQueueManager :=
  let canonical := canonicalize_url url
  let processed :=
    if canonical ∈ m.processedUrls then setErase canonical m.processedUrls
    else m.processedUrls
  let queued :=
    if canonical ∈ m.queuedUrls then setErase canonical m.queuedUrls
    else m.queuedUrls
  { m with
    processedUrls := processed
    urlQueue := m.urlQueue ++ [url]
    queuedUrls := setInsert canonical queued }

/-! ## Sequences of queue-engine calls -/

/-- One call of the queue engine. -/
inductive QueueOp
  | setSeedUrl (url : Str)
  | addSeedUrl (url : Str)
  | addUrl (url : Str)
  | addUrls (urls : List Str)
  | getNextUrl (workerId : Int)
  | markProcessed (url : Str)
  | reassignUrlsFromWorker (workerId : Int)
  deriving DecidableEq, Repr

/-- The effect of one call: the URL it hands out (only a successful
`getNextUrl` hands one out) and the manager afterwards. -/
def QueueOp.apply : QueueOp → UrlQueueManager → Option Str × UrlQueueManager
  | .setSeedUrl url, m => (none, Crawler.setSeedUrl url m)
  | .addSeedUrl url, m => (none, Crawler.addSeedUrl url m)
  | .addUrl url, m => (none, Crawler.addUrl url m)
  | .addUrls urls, m => (none, Crawler.addUrls urls m)
  | .getNextUrl workerId, m => Crawler.getNextUrl workerId m
  | .markProcessed url, m => (none, Crawler.markProcessed url m)
  | .reassignUrlsFromWorker workerId, m => (none, Crawler.reassignUrlsFromWorker workerId m)

/-- The manager after a sequence of calls. -/
def runOps : List QueueOp → UrlQueueManager → UrlQueueManager
  | [], m => m
  | op :: ops, m => runOps ops (op.apply m).2

/-- The URLs handed out by the successful `getNextUrl` calls of a sequence, in
call order. -/
def handedOut : List QueueOp → UrlQueueManager → List Str
  | [], _ => []
  | op :: ops, m =>
    match (op.apply m).1 with
    | some url => url :: handedOut ops (op.apply m).2
    | none => handedOut ops (op.apply m).2

/-- The calls of a plain crawl: no seed reset, no seed injection, no
reassignment. -/
def QueueOp.isCrawlOp : QueueOp → Bool
  | .addUrl _ => true
  | .addUrls _ => true
  | .getNextUrl _ => true
  | .markProcessed _ => true
  | _ => false

/-- The canonical forms of the keys of `assignedUrls`. -/
def assignedCanonical (m : UrlQueueManager) : List Str :=
  m.assignedUrls.map (fun e => canonicalize_url e.1)

/-! ## `server.cpp`: `WorkerRegistry` and the connection handler -/

/-- The value an `int` holds after an arithmetic result `x`: `x` reduced to the
range from `-2 ^ 31` to `2 ^ 31 - 1` (two's complement, 32 bit). -/
def wrapInt (x : Int) : Int := (x + 2147483648) % 4294967296 - 2147483648

/-- `struct WorkerInfo`; the two clock fields are left out. -/
structure WorkerInfo where
  id : Int
  address : Str
  port : Int
  pagesProcessed : Int
  booksFound : Int
  totalLinks : Int
  deriving DecidableEq, Repr

/-- The data members of `WorkerRegistry`; `workers` in key order. -/
structure WorkerRegistry where
  workers : List (Int × WorkerInfo)
  nextWorkerId : Int
  deriving DecidableEq, Repr

/-- A registry as constructed: no worker, next id 1. -/
def WorkerRegistry.new : WorkerRegistry := { workers := [], nextWorkerId := 1 }

/-- `workers[id] = worker` on the `std::map<int, WorkerInfo>`. -/
def workersAssign (id : Int) (w : WorkerInfo) : List (Int × WorkerInfo) → List (Int × WorkerInfo)
  | [] => [(id, w)]
  | e :: es =>
    if id = e.1 then (id, w) :: es
    else if id < e.1 then (id, w) :: e :: es
    else e :: workersAssign id w es

/-- `WorkerRegistry::registerWorker`: the id and the registry afterwards;
`nextWorkerId++` is an `int` increment. -/
def registerWorker (address : Str) (port : Int) (r : WorkerRegistry) : Int × WorkerRegistry :=
  let id := r.nextWorkerId
  let worker : WorkerInfo :=
    { id := id, address := address, port := port,
      pagesProcessed := 0, booksFound := 0, totalLinks := 0 }
  (id,
    { workers := workersAssign id worker r.workers
      nextWorkerId := wrapInt (r.nextWorkerId + 1) })

/-- `WorkerRegistry::disconnectWorker`. -/
def disconnectWorker (workerId : Int) (r : WorkerRegistry) : WorkerRegistry :=
  { r with workers := r.workers.filter (·.1 ≠ workerId) }

/-- The globals the connection handler works on. -/
structure Coordinator where
  urlQueueManager : UrlQueueManager
  workerRegistry : WorkerRegistry
  crawlerEnabled : Bool
  serverShutdown : Bool
  deriving DecidableEq, Repr

/-- The locals of `handleClient` that live across messages. -/
structure Session where
  workerId : Int
  registered : Bool
  deriving DecidableEq, Repr

/-- The locals of `handleClient` when the connection is accepted. -/
def Session.new : Session := { workerId := -1, registered := false }

/-- The branch of the dispatch chain of `handleClient` a message takes. -/
inductive Branch
  | register | getUrl | processed | links | progress | unknown
  deriving DecidableEq, Repr

/-- `message.find(verb) == 0`. -/
def startsWith (verb message : Str) : Bool := strFind verb message == some 0

/-- The `if` / `else if` chain of `handleClient`. -/
def dispatch (message : Str) (registered : Bool) : Branch :=
  if startsWith "REGISTER".toList message then Branch.register
  else if startsWith "GET_URL".toList message && registered then Branch.getUrl
  else if startsWith "PROCESSED:".toList message && registered then Branch.processed
  else if startsWith "LINKS:".toList message && registered then Branch.links
  else if startsWith "PROGRESS:".toList message && registered then Branch.progress
  else Branch.unknown

/-- The `GET_URL` branch of `handleClient`: the response it sends and the
coordinator afterwards. -/
def handleGetUrl (workerId : Int) (c : Coordinator) : Str × Coordinator :=
  if c.crawlerEnabled then
    match getNextUrl workerId c.urlQueueManager with
    | (some nextUrl, m) => ("URL:".toList ++ nextUrl, { c with urlQueueManager := m })
    | (none, m) =>
      if c.serverShutdown then ("SHUTDOWN".toList, { c with urlQueueManager := m })
      else ("WAIT".toList, { c with urlQueueManager := m })
  else ("WAIT".toList, c)

/-- The code of `handleClient` after its receive loop (`recv` returned 0 or an
error, or the loop was left on shutdown): the worker leaves the registry. -/
def handleDisconnect (sess : Session) (c : Coordinator) : Coordinator :=
  if sess.workerId ≠ -1 then
    { c with workerRegistry := disconnectWorker sess.workerId c.workerRegistry }
  else c

/-- The property kept by every queue-engine call: nothing is both queued and
processed. -/
def QueuedProcessedDisjoint (m : UrlQueueManager) : Prop :=
  ∀ c, c ∈ m.queuedUrls → c ∉ m.processedUrls

/-- Whether an add call stays clear of the URLs in flight: every URL it offers
whose canonical form is in `out` (handed out earlier) is already processed. -/
def addAvoidsInFlight (out : List Str) (m : UrlQueueManager) : QueueOp → Bool
  | .addUrl url =>
    decide (canonicalize_url url ∈ out → canonicalize_url url ∈ m.processedUrls)
  | .addUrls urls =>
    decide (∀ url ∈ urls,
      canonicalize_url url ∈ out → canonicalize_url url ∈ m.processedUrls)
  | _ => true

/-- Whether every add call of a sequence stays clear of the URLs in flight at
the time it is made; `out` holds the canonical forms handed out before the
sequence starts. -/
def addsAvoidInFlight : List QueueOp → UrlQueueManager → List Str → Bool
  | [], _, _ => true
  | op :: ops, m, out =>
    addAvoidsInFlight out m op &&
      addsAvoidInFlight ops (op.apply m).2
        (out ++ (op.apply m).1.toList.map canonicalize_url)

/-- The property of queue and hand-out history kept by the calls of a plain
crawl whose adds stay clear of the URLs in flight. -/
structure QueueFresh (m : UrlQueueManager) (out : List Str) : Prop where
  queue_nodup : (m.urlQueue.map canonicalize_url).Nodup
  queue_known : ∀ q ∈ m.urlQueue,
    canonicalize_url q ∈ m.queuedUrls ∨ canonicalize_url q ∈ m.processedUrls
  queue_fresh : ∀ q ∈ m.urlQueue, canonicalize_url q ∉ out
  out_nodup : out.Nodup

/-- A crawl of two pages: both are added and handed out, the first is reported
and then offered again with a trailing slash. -/
def sampleCrawl : List QueueOp :=
  [QueueOp.addUrls ["http://books.toscrape.com/a".toList,
                    "http://books.toscrape.com/b".toList],
   QueueOp.getNextUrl 1,
   QueueOp.markProcessed "http://books.toscrape.com/a".toList,
   QueueOp.addUrl "http://books.toscrape.com/a/".toList,
   QueueOp.getNextUrl 2,
   QueueOp.getNextUrl 1]

/-- A manager in which worker 1 holds `http://books.toscrape.com/a`: the URL
was added and then handed to worker 1. -/
def sampleHeld : UrlQueueManager :=
  runOps [QueueOp.addUrl "http://books.toscrape.com/a".toList, QueueOp.getNextUrl 1]
    UrlQueueManager.default

/-- A coordinator with one registered worker, worker 1, which holds
`http://books.toscrape.com/a`. -/
def sampleCoordinator : Coordinator where
  urlQueueManager := sampleHeld
  workerRegistry := (registerWorker "127.0.0.1".toList 50000 WorkerRegistry.new).2
  crawlerEnabled := true
  serverShutdown := false

/-- The canonical host of a URL, in the words of the host-filter rule: the part
of its canonical form before the first `/`. -/
def canonicalHost (url : Str) : Str :=
  (canonicalize_url url).takeWhile (· ≠ '/')

/-- The text of `s` after the first occurrence of `pat`, `none` when `pat`
does not occur. -/
def afterFirst (pat : Str) : Str → Option Str
  | [] => if pat = [] then some [] else none
  | c :: cs =>
    if pat.isPrefixOf (c :: cs) then some ((c :: cs).drop pat.length)
    else afterFirst pat cs

/-- The host of a seed URL in the words of the seed-reset rule: the text after
the first `://` (the whole URL when there is none), up to but not including the
next `/` (to the end when there is none). -/
def hostOf (url : Str) : Str :=
  ((afterFirst "://".toList url).getD url).takeWhile (· ≠ '/')

/-- The end of the loop body of `handleClient`: when the server is shutting
down, one `SHUTDOWN` frame follows whatever the branch has sent, and the loop
is left. -/
def shutdownNotice (c : Coordinator) : List Str :=
  if c.serverShutdown then ["SHUTDOWN".toList] else []

/-- A coordinator that is shutting down with the gate on and an empty queue. -/
def sampleShuttingDownIdle : Coordinator where
  urlQueueManager := UrlQueueManager.default
  workerRegistry := (registerWorker "127.0.0.1".toList 50000 WorkerRegistry.new).2
  crawlerEnabled := true
  serverShutdown := true

/-- A coordinator that is shutting down with the gate on and one queued URL. -/
def sampleShuttingDownBusy : Coordinator where
  urlQueueManager := addUrl "http://books.toscrape.com/a".toList UrlQueueManager.default
  workerRegistry := (registerWorker "127.0.0.1".toList 50000 WorkerRegistry.new).2
  crawlerEnabled := true
  serverShutdown := true

/-- The entries of a `std::map<std::string, int>` are in strictly ascending
key order. -/
def KeysAscending (l : List (Str × Int)) : Prop :=
  l.Pairwise (fun a b => strLt a.1 b.1 = true)

/-- A manager whose seed is on a `www.` host: `setSeedUrl` was called with
`https://www.books.toscrape.com/`. -/
def sampleWwwSeed : UrlQueueManager :=
  setSeedUrl "https://www.books.toscrape.com/".toList UrlQueueManager.default

/-! ## `size_t` arithmetic and checked `substr` -/

/-- The double quote character. -/
def dq : Char := Char.ofNat 34

/-- The number of values of `size_t` (64 bit). -/
def sizeMod : Nat := 2 ^ 64

/-- `std::string::npos`, the largest `size_t`. -/
def npos : Nat := sizeMod - 1

/-- `a + b` on `size_t`. -/
def sizeAdd (a b : Nat) : Nat := (a + b) % sizeMod

/-- `a - b` on `size_t`. -/
def sizeSub (a b : Nat) : Nat := (a + sizeMod - b % sizeMod) % sizeMod

/-- `s.find(pat, pos)` as the `size_t` it returns, `npos` when there is no
occurrence. -/
def findPos (pat s : Str) (pos : Nat) : Nat := (strFindFrom pat s pos).getD npos

/-- `s.substr(pos, n)`: `none` when it throws `std::out_of_range`, that is when
`pos > s.size()`. -/
def substrChecked (s : Str) (pos n : Nat) : Option Str :=
  if s.length < pos then none else some (substr s pos n)

/-! ## `server.cpp`: the rest of `WorkerRegistry` -/

/-- The update `if (workers.find(id) != workers.end()) f(workers[id])`. -/
def workersModify (id : Int) (f : WorkerInfo → WorkerInfo)
    (ws : List (Int × WorkerInfo)) : List (Int × WorkerInfo) :=
  ws.map (fun e => if e.1 = id then (e.1, f e.2) else e)

/-- `WorkerRegistry::updateProgress`. -/
def updateProgress (workerId pagesProcessed : Int) (r : WorkerRegistry) : WorkerRegistry :=
  { r with workers :=
      (workersModify workerId (fun w => { w with pagesProcessed := pagesProcessed })
        r.workers) }

/-- `WorkerRegistry::incrementProcessedCount`; `pagesProcessed++` is an `int`
increment. -/
def incrementProcessedCount (workerId : Int) (r : WorkerRegistry) : WorkerRegistry :=
  { r with workers :=
      (workersModify workerId
        (fun w => { w with pagesProcessed := wrapInt (w.pagesProcessed + 1) }) r.workers) }

/-- `WorkerRegistry::updateWorkerStats`; `totalLinks += addedLinks` and
`booksFound++` are `int` arithmetic. -/
def updateWorkerStats (workerId addedLinks : Int) (foundBook : Bool)
    (r : WorkerRegistry) : WorkerRegistry :=
  { r with workers :=
      (workersModify workerId
        (fun w => { w with
          totalLinks := wrapInt (w.totalLinks + addedLinks)
          booksFound := if foundBook then wrapInt (w.booksFound + 1) else w.booksFound })
        r.workers) }

/-- One call of the worker registry. -/
inductive RegistryOp
  | registerWorker (address : Str) (port : Int)
  | disconnectWorker (workerId : Int)
  | updateProgress (workerId pagesProcessed : Int)
  | incrementProcessedCount (workerId : Int)
  | updateWorkerStats (workerId addedLinks : Int) (foundBook : Bool)
  deriving DecidableEq, Repr

/-- The effect of one registry call: the id it returns (only `registerWorker`
returns one) and the registry afterwards. -/
def RegistryOp.apply : RegistryOp → WorkerRegistry → Option Int × WorkerRegistry
  | .registerWorker address port, r =>
    (some (Crawler.registerWorker address port r).1, (Crawler.registerWorker address port r).2)
  | .disconnectWorker workerId, r => (none, Crawler.disconnectWorker workerId r)
  | .updateProgress workerId pages, r => (none, Crawler.updateProgress workerId pages r)
  | .incrementProcessedCount workerId, r => (none, Crawler.incrementProcessedCount workerId r)
  | .updateWorkerStats workerId addedLinks foundBook, r =>
    (none, Crawler.updateWorkerStats workerId addedLinks foundBook r)

/-- The ids returned by the `registerWorker` calls of a sequence, in call
order. -/
def idsReturned : List RegistryOp → WorkerRegistry → List Int
  | [], _ => []
  | op :: ops, r =>
    match (op.apply r).1 with
    | some id => id :: idsReturned ops (op.apply r).2
    | none => idsReturned ops (op.apply r).2

/-- Whether a registry call is a `registerWorker`. -/
def RegistryOp.isRegister : RegistryOp → Bool
  | .registerWorker _ _ => true
  | _ => false

/-! ## `Item.h`: `Item::fromBook` -/

/-- One round of the loop of `Item::fromBook` that cleans the price: the state
is `cleanPrice` with `foundDigit`. -/
def cleanPriceStep (acc : Str × Bool) (c : Char) : Str × Bool :=
  if !acc.2 && (c = '$' || 127 < c.toNat) then acc
  else if c.isDigit then (acc.1 ++ [c], true)
  else if (c = '.' || c = ',') && acc.2 then (acc.1 ++ ['.'], acc.2)
  else acc

/-- The `cleanPrice` string of `Item::fromBook`. -/
def cleanPrice (priceStr : Str) : Str := (priceStr.foldl cleanPriceStep ([], false)).1

/-- The number written by a string of decimal digits. -/
def digitsValue (ds : Str) : Nat := ds.foldl (fun n c => 10 * n + (c.toNat - 48)) 0

/-- `std::stod` on a string of digits and dots that starts with a digit: the
digits, and after one dot the digits that follow, as an exact decimal. The
rounding to `double` and the range error of `stod` are not part of the model. -/
def stod (s : Str) : Rat :=
  let intPart := s.takeWhile Char.isDigit
  match s.drop intPart.length with
  | '.' :: rest =>
    let frac := rest.takeWhile Char.isDigit
    (digitsValue intPart : Rat) + (digitsValue frac : Rat) / (10 : Rat) ^ frac.length
  | _ => (digitsValue intPart : Rat)

/-- The price `Item::fromBook` derives from the price string. -/
def bookPrice (price : Str) : Rat :=
  if price = [] then 0
  else if cleanPrice price = [] then 0
  else stod (cleanPrice price)

/-- The rating `Item::fromBook` derives from the rating word. -/
def bookRating (rating : Str) : Int :=
  if rating = "One".toList then 1
  else if rating = "Two".toList then 2
  else if rating = "Three".toList then 3
  else if rating = "Four".toList then 4
  else if rating = "Five".toList then 5
  else 0

/-- `Item::fromBook`. -/
def Item.fromBook (book : Book) : Item where
  id := book.url
  type := ItemType.BOOK
  url := book.url
  title := book.title
  fields := [("price_original".toList, book.price), ("rating_original".toList, book.rating)]
  category := []
  price := bookPrice book.price
  rating := bookRating book.rating
  description := []
  imageUrl := []
  date := []

/-! ## `server.cpp`: `addBook`, `addItem` -/

/-- The test of the `find_if` of `addBook`. -/
def bookKeyEq (b book : Book) : Bool :=
  b.title = book.title && b.price = book.price && b.rating = book.rating

/-- The test of the `find_if` of `addItem`. -/
def itemKeyEq (i item : Item) : Bool :=
  i.type = item.type && i.title = item.title && i.price = item.price && i.rating = item.rating

/-- `UrlQueueManager::addBook`. -/
def addBook (book : Book) (m : UrlQueueManager) : UrlQueueManager :=
  if m.collectedBooks.any (fun b => bookKeyEq b book) then m
  else { m with
    collectedBooks := m.collectedBooks ++ [book]
    collectedItems := m.collectedItems ++ [Item.fromBook book] }

/-- `item.fields.count(key) ? item.fields.at(key) : other`. -/
def fieldOr (fields : List (Str × Str)) (key other : Str) : Str :=
  match fields.find? (·.1 = key) with
  | some e => e.2
  | none => other

/-- `std::to_string` of an `int`. -/
def intToString (n : Int) : Str := (toString n).toList

/-- `UrlQueueManager::addItem`; `fmt` is `std::to_string` on a `double`. -/
def addItem (fmt : Rat → Str) (item : Item) (m : UrlQueueManager) : UrlQueueManager :=
  if m.collectedItems.any (fun i => itemKeyEq i item) then m
  else if item.type = ItemType.BOOK then
    { m with
      collectedItems := m.collectedItems ++ [item]
      collectedBooks := m.collectedBooks ++
        [{ title := item.title
           url := item.url
           price := fieldOr item.fields "price_original".toList (fmt item.price)
           rating := fieldOr item.fields "rating_original".toList (intToString item.rating) }] }
  else { m with collectedItems := m.collectedItems ++ [item] }

/-- One call on the item collections. -/
inductive ItemOp
  | addBook (book : Book)
  | addItem (item : Item)
  deriving DecidableEq, Repr

/-- The effect of one call on the item collections. -/
def ItemOp.apply (fmt : Rat → Str) : ItemOp → UrlQueueManager → UrlQueueManager
  | .addBook book, m => Crawler.addBook book m
  | .addItem item, m => Crawler.addItem fmt item m

/-- The manager after a sequence of calls on the item collections. -/
def runItemOps (fmt : Rat → Str) : List ItemOp → UrlQueueManager → UrlQueueManager
  | [], m => m
  | op :: ops, m => runItemOps fmt ops (op.apply fmt m)

/-- Whether two items agree on the deduplication key. -/
def SameItemKey (a b : Item) : Prop :=
  a.type = b.type ∧ a.title = b.title ∧ a.price = b.price ∧ a.rating = b.rating

/-! ## `worker.cpp` and `server.cpp`: the `PROCESSED` and `LINKS` messages -/

/-- The `PROCESSED` message `sendProcessedUrlToServer` builds. -/
def processedMessage (url : Str) (book : Book) : Str :=
  "PROCESSED:".toList ++ ("\x7burl:".toList ++ [dq] ++ url ++ [dq]
    ++ ",book:\x7btitle:".toList ++ [dq] ++ book.title ++ [dq]
    ++ ",price:".toList ++ [dq] ++ book.price ++ [dq]
    ++ ",rating:".toList ++ [dq] ++ book.rating ++ [dq]
    ++ ",url:".toList ++ [dq] ++ book.url ++ [dq] ++ "\x7d\x7d".toList)

/-- The extraction idiom of `handleClient`:
`start = data.find(key, pos) + skip; end = data.find(quote, start);
value = data.substr(start, end - start)`. The result is the value (`none` when
`substr` throws) and `end`. -/
def extractQuoted (key : Str) (skip : Nat) (data : Str) (pos : Nat) : Option Str × Nat :=
  let start := sizeAdd (findPos key data pos) skip
  let stop := findPos [dq] data start
  (substrChecked data start (sizeSub stop start), stop)

/-- The field extraction of the `PROCESSED` branch: the reported URL and the
book, `none` when one of the `substr` calls throws. -/
def parseProcessed (data : Str) : Option (Str × Book) :=
  let urlX := extractQuoted ("url:".toList ++ [dq]) 5 data 0
  let titleX := extractQuoted ("title:".toList ++ [dq]) 7 data 0
  let priceX := extractQuoted ("price:".toList ++ [dq]) 7 data 0
  let ratingX := extractQuoted ("rating:".toList ++ [dq]) 8 data 0
  let bookUrlX := extractQuoted ("url:".toList ++ [dq]) 5 data ratingX.2
  match urlX.1, titleX.1, priceX.1, ratingX.1, bookUrlX.1 with
  | some url, some title, some price, some rating, some bookUrl =>
    some (url, { title := title, price := price, rating := rating, url := bookUrl })
  | _, _, _, _, _ => none

/-- The `PROCESSED` branch of `handleClient` on a message that begins with
`PROCESSED:`: the response and the coordinator afterwards, `none` when an
exception leaves the handler thread (which ends the process). -/
def handleProcessed (workerId : Int) (message : Str) (c : Coordinator) :
    Option (Str × Coordinator) :=
  if c.crawlerEnabled then
    match parseProcessed (substrFrom message 10) with
    | none => none
    | some (url, book) =>
      let marked := markProcessed url c.urlQueueManager
      some ("ACK".toList,
        { c with
          urlQueueManager := if book.title ≠ [] then addBook book marked else marked
          workerRegistry := incrementProcessedCount workerId c.workerRegistry })
  else some ("ACK".toList, c)

/-- The loop of the `LINKS` branch that collects the quoted links of
`linksStr`, starting at `pos`; `fuel` bounds the number of rounds. -/
def parseLinksLoop : Nat → Str → Nat → List Str
  | 0, _, _ => []
  | fuel + 1, linksStr, pos =>
    match strFindFrom [dq] linksStr pos with
    | none => []
    | some p =>
      match strFindFrom [dq] linksStr (p + 1) with
      | none => []
      | some endPos =>
        substr linksStr (p + 1) (endPos - p - 1) :: parseLinksLoop fuel linksStr (endPos + 1)

/-- The links of `linksStr`; every round moves `pos` forward, so
`linksStr.length + 1` rounds are enough. -/
def parseLinks (linksStr : Str) : List Str :=
  parseLinksLoop (linksStr.length + 1) linksStr 0

/-- The `LINKS` branch of `handleClient` on a message that begins with
`LINKS:`: the response and the coordinator afterwards, `none` when an exception
leaves the handler thread. -/
def handleLinks (workerId : Int) (message : Str) (c : Coordinator) :
    Option (Str × Coordinator) :=
  if c.crawlerEnabled then
    match strFind ":\x7b".toList message with
    | none => some ("ACK".toList, c)
    | some batchInfoEnd =>
      let data := substrFrom message (batchInfoEnd + 1)
      let urlX := extractQuoted ("url:".toList ++ [dq]) 5 data 0
      let linksStart := sizeAdd (findPos "links:[".toList data 0) 7
      let linksEnd := findPos [']'] data linksStart
      match urlX.1, substrChecked data linksStart (sizeSub linksEnd linksStart) with
      | some _, some linksStr =>
        let links := parseLinks linksStr
        some ("ACK".toList,
          { c with
            urlQueueManager := addUrls links c.urlQueueManager
            workerRegistry :=
              updateWorkerStats workerId (wrapInt links.length) false c.workerRegistry })
      | _, _ => none
  else some ("ACK".toList, c)

/-- Segments joined by double quotes: `s0 " s1 " s2 ...`. -/
def joinQuoted : List Str → Str
  | [] => []
  | [s] => s
  | s :: t :: rest => s ++ dq :: joinQuoted (t :: rest)

/-- What the extraction idiom finds for the key `k"` in quote-separated
segments: the segment that follows the first segment ending with `k`, the
index of the quote that closes it, and the segments after that quote. -/
def fieldOf (k : Str) : List Str → Option (Str × Nat × List Str)
  | [] => none
  | s :: tail =>
    if k.isSuffixOf s then
      match tail with
      | v :: w :: rest => some (v, s.length + 1 + v.length, w :: rest)
      | _ => none
    else (fieldOf k tail).map (fun r => (r.1, r.2.1 + (s.length + 1), r.2.2))

/-- The data part of a `PROCESSED` message as quote-separated segments. -/
def processedSegments (url : Str) (book : Book) : List Str :=
  ["\x7burl:".toList, url, ",book:\x7btitle:".toList, book.title, ",price:".toList,
    book.price, ",rating:".toList, book.rating, ",url:".toList, book.url, "\x7d\x7d".toList]

/-- A book as a worker reports it. -/
def sampleBookPound : Book where
  title := "A Light in the Attic".toList
  price := "£51.77".toList
  rating := "Three".toList
  url := "http://books.toscrape.com/catalogue/a-light-in-the-attic_1000/index.html".toList

/-- The same book as a mirror page lists it, with its price in dollars. -/
def sampleBookDollar : Book where
  title := "A Light in the Attic".toList
  price := "$51.77".toList
  rating := "Three".toList
  url := "http://books.toscrape.com/catalogue/mirror/a-light-in-the-attic_1000/index.html".toList

/-- The `PROCESSED` message of the first end-to-end scenario. -/
def sampleProcessedMessage : Str :=
  processedMessage "http://books.toscrape.com/".toList
    { title := "A".toList, price := "£10.00".toList, rating := "Three".toList,
      url := "http://books.toscrape.com/a".toList }

/-- Whether two books agree on the key `addBook` compares: the title, price
and rating strings. -/
def SameBookKey (a b : Book) : Prop :=
  a.title = b.title ∧ a.price = b.price ∧ a.rating = b.rating

/-- The NUL byte. -/
def nul : Char := Char.ofNat 0

/-- `std::string message(buffer)` on the bytes one `recv` has stored in the
buffer of `handleClient`: the text up to the first NUL byte. -/
def receivedMessage (bytes : Str) : Str := bytes.takeWhile (· ≠ nul)

/-! ## `server.cpp`: `resetCollectedData` and the counts of the status report -/

/-- `UrlQueueManager::resetCollectedData`. -/
def resetCollectedData (m : UrlQueueManager) : UrlQueueManager :=
  { m with
    urlQueue := []
    processedUrls := []
    queuedUrls := []
    assignedUrls := []
    collectedBooks := []
    collectedItems := [] }

/-- One call of the queue engine, `resetCollectedData` included. -/
inductive EngineOp
  | queue (op : QueueOp)
  | resetCollectedData
  deriving DecidableEq, Repr

/-- The manager after one call of the queue engine. -/
def EngineOp.apply : EngineOp → UrlQueueManager → UrlQueueManager
  | .queue op, m => (op.apply m).2
  | .resetCollectedData, m => Crawler.resetCollectedData m

/-- The manager after a sequence of calls of the queue engine. -/
def runEngineOps : List EngineOp → UrlQueueManager → UrlQueueManager
  | [], m => m
  | op :: ops, m => runEngineOps ops (op.apply m)

/-- One call that touches the two collections of extracted records. -/
inductive CollectionOp
  | addBook (book : Book)
  | addItem (item : Item)
  | setSeedUrl (url : Str)
  | resetCollectedData
  deriving DecidableEq, Repr

/-- The manager after one call that touches the collections. -/
def CollectionOp.apply (fmt : Rat → Str) : CollectionOp → UrlQueueManager → UrlQueueManager
  | .addBook book, m => Crawler.addBook book m
  | .addItem item, m => Crawler.addItem fmt item m
  | .setSeedUrl url, m => Crawler.setSeedUrl url m
  | .resetCollectedData, m => Crawler.resetCollectedData m

/-- The manager after a sequence of calls that touch the collections. -/
def runCollectionOps (fmt : Rat → Str) : List CollectionOp → UrlQueueManager → UrlQueueManager
  | [], m => m
  | op :: ops, m => runCollectionOps fmt ops (op.apply fmt m)

/-- `UrlQueueManager::getBookCount`, the `books_found` of the status report;
the narrowing of the size to `int` is outside the model. -/
def getBookCount (m : UrlQueueManager) : Nat := m.collectedBooks.length

/-- `UrlQueueManager::getItemCount`, the `items_found` of the status
report. -/
def getItemCount (m : UrlQueueManager) : Nat := m.collectedItems.length

/-- The entries of `collectedItems` whose type is `BOOK`. -/
def bookItems (m : UrlQueueManager) : List Item :=
  m.collectedItems.filter (fun i => i.type = ItemType.BOOK)

/-! ## `server.cpp`: one round of the receive loop of `handleClient` -/

/-- `std::isspace` in the C locale. -/
def isSpace (c : Char) : Bool := c = ' ' || (9 ≤ c.toNat && c.toNat ≤ 13)

/-- `std::stoi(s)`: white space, an optional sign, then decimal digits; `none`
when it throws, which it does when there is no digit (`std::invalid_argument`)
or the value is outside `int` (`std::out_of_range`). -/
def stoi (s : Str) : Option Int :=
  let t := s.dropWhile isSpace
  let signed : Bool × Str :=
    match t with
    | '-' :: r => (true, r)
    | '+' :: r => (false, r)
    | _ => (false, t)
  let ds := signed.2.takeWhile Char.isDigit
  if ds = [] then none
  else
    let v : Int := if signed.1 then -(digitsValue ds : Int) else (digitsValue ds : Int)
    if v < -2147483648 ∨ 2147483647 < v then none else some v

/-- The `PROGRESS` branch of `handleClient`: a count that does not parse is
taken as 0. -/
def handleProgress (workerId : Int) (message : Str) (c : Coordinator) : Str × Coordinator :=
  let progress := (stoi (substrFrom message 9)).getD 0
  ("ACK".toList, { c with workerRegistry := updateProgress workerId progress c.workerRegistry })

/-- Whether the `LINKS` branch takes its `continue`: the gate is on and the
message has no `:\x7b`. -/
def linksMalformed (message : Str) (c : Coordinator) : Bool :=
  c.crawlerEnabled && (strFind ":\x7b".toList message).isNone

/-- One round of the receive loop of `handleClient`, for a received `message`
on the connection from `address:port`: the frames sent, the locals and the
coordinator afterwards; `none` when an exception leaves the handler thread.
The frames end with the shutdown notice, which the `continue` of the `LINKS`
branch skips. -/
def handleMessage (address : Str) (port : Int) (message : Str) (sess : Session)
    (c : Coordinator) : Option (List Str × Session × Coordinator) :=
  match dispatch message sess.registered with
  | Branch.register =>
    let reg := registerWorker address port c.workerRegistry
    some (("ASSIGN_ID:".toList ++ intToString reg.1) :: shutdownNotice c,
      { workerId := reg.1, registered := true },
      { c with workerRegistry := reg.2 })
  | Branch.getUrl =>
    let r := handleGetUrl sess.workerId c
    some (r.1 :: shutdownNotice r.2, sess, r.2)
  | Branch.processed =>
    (handleProcessed sess.workerId message c).map
      (fun r => (r.1 :: shutdownNotice r.2, sess, r.2))
  | Branch.links =>
    if linksMalformed message c then some (["ACK".toList], sess, c)
    else
      (handleLinks sess.workerId message c).map
        (fun r => (r.1 :: shutdownNotice r.2, sess, r.2))
  | Branch.progress =>
    let r := handleProgress sess.workerId message c
    some (r.1 :: shutdownNotice r.2, sess, r.2)
  | Branch.unknown => some (shutdownNotice c, sess, c)

/-! ## `worker.cpp`: URL repair and the local set of processed URLs -/

/-- `isValidUrl` of `worker.cpp`. -/
def isValidUrl (url : Str) : Bool :=
  if url = [] then false
  else if strContains "http://http://".toList url
      || strContains "http://https://".toList url
      || strContains "https://http://".toList url
      || strContains "https://https://".toList url then false
  else if strContains "http://books.toscrape.comhttp".toList url
      || strContains "http://books.toscrape.comhttps".toList url then false
  else true

/-- `fixMalformedUrl` of `worker.cpp`. -/
def fixMalformedUrl (url : Str) : Str :=
  match strFind "http://books.toscrape.comhttp".toList url with
  | some pos => substrFrom url (pos + 24)
  | none =>
    match strFind "http://books.toscrape.comhttps".toList url with
    | some pos => substrFrom url (pos + 24)
    | none => url

/-- `s.find_last_of(c)`: the last position of `c` in `s`. -/
def findLastOf (c : Char) : Str → Option Nat
  | [] => none
  | d :: ds =>
    match findLastOf c ds with
    | some i => some (i + 1)
    | none => if d = c then some 0 else none

/-- The innermost test of the first part of `hasUrlBeenProcessed`: whether
`productIdentifier` has an underscore and its text before the first one, the
`productName`, occurs in a URL of the set. -/
def productNameSeen (productIdentifier : Str) (processedUrls : List Str) : Bool :=
  match strFind ['_'] productIdentifier with
  | some underscorePos =>
    let productName := substr productIdentifier 0 underscorePos
    processedUrls.any (fun processedUrl => strContains productName processedUrl)
  | none => false

/-- The first part of `hasUrlBeenProcessed`, on the lower-cased URL without its
trailing slash: whether the URL is a catalogue page whose name, up to the first
underscore, occurs in a URL of the set. -/
def productSeen (canonicalUrl : Str) (processedUrls : List Str) : Bool :=
  if strContains "/catalogue/".toList canonicalUrl
      && strContains ".html".toList canonicalUrl then
    match findLastOf '/' canonicalUrl, strFind ".html".toList canonicalUrl with
    | some lastSlash, some dotHtml =>
      productNameSeen
        (substr canonicalUrl (lastSlash + 1) (sizeSub (sizeSub dotHtml lastSlash) 1))
        processedUrls
    | _, _ => false
  else false

/-- The canonical form `hasUrlBeenProcessed` computes: lower case, one trailing
slash removed. -/
def workerCanonical (url : Str) : Str := stripTrailingSlash (url.map tolower)

/-- `hasUrlBeenProcessed` of `worker.cpp` on the global set `processedUrls`:
the result and the set afterwards. -/
def hasUrlBeenProcessed (url : Str) (processedUrls : List Str) : Bool × List Str :=
  let canonicalUrl := workerCanonical url
  if productSeen canonicalUrl processedUrls then (true, processedUrls)
  else if canonicalUrl ∈ processedUrls then (true, processedUrls)
  else (false, setInsert canonicalUrl processedUrls)

/-- The globals of `worker.cpp` the crawl loop works on, with the two static
counters of `getUrlFromServer`. -/
structure Worker where
  shouldStop : Bool
  lastReceivedUrl : Str
  processedUrls : List Str
  startUrl : Str
  waitCount : Int
  errorCount : Int
  deriving DecidableEq, Repr

/-- The globals when the process starts. -/
def Worker.new : Worker where
  shouldStop := false
  lastReceivedUrl := []
  processedUrls := []
  startUrl := []
  waitCount := 0
  errorCount := 0

/-- What the socket does with one message of the worker: `send` fails, or
nothing comes back (`recv` returns 0 or an error; in the polling loops, nothing
arrives before the time is up), or a text is received. -/
inductive Exchange
  | sendError
  | noReply
  | reply (text : Str)
  deriving DecidableEq, Repr

/-- The error path of `getUrlFromServer`: the counter of consecutive errors
goes up, and at `MAX_CONSECUTIVE_ERRORS` (5) the stop flag is set. -/
def countError (w : Worker) : Worker :=
  { w with
    errorCount := w.errorCount + 1
    shouldStop := if 5 ≤ w.errorCount + 1 then true else w.shouldStop }

/-- `getUrlFromServer`: the URL returned (empty for none) and the globals
afterwards; `first` is the exchange of its `GET_URL`, `second` that of the
`GET_URL` it sends after an `ACK`. -/
def getUrlFromServer (first second : Exchange) (w : Worker) : Str × Worker :=
  if w.lastReceivedUrl ≠ [] then
    let url := fixMalformedUrl w.lastReceivedUrl
    let w1 := { w with lastReceivedUrl := [], waitCount := 0, errorCount := 0 }
    if isValidUrl url then (url, w1) else ([], w1)
  else
    match first with
    | Exchange.sendError => ([], countError w)
    | Exchange.noReply => ([], countError w)
    | Exchange.reply text =>
      let w1 := { w with errorCount := 0 }
      if text = "SHUTDOWN".toList then ([], { w1 with shouldStop := true })
      else if text = "WAIT".toList then
        ([], { w1 with waitCount := min (w1.waitCount + 1) 10 })
      else
        let next : Option Str :=
          if text = "ACK".toList then
            match second with
            | Exchange.reply text2 => some text2
            | _ => none
          else some text
        match next with
        | none => ([], w1)
        | some response =>
          if startsWith "URL:".toList response then
            let url := fixMalformedUrl (substrFrom response 4)
            let w2 := { w1 with waitCount := 0 }
            if isValidUrl url then (url, w2) else ([], w2)
          else ([], w1)

/-- `MAX_LINKS_PER_MESSAGE` of `sendProcessedUrlToServer`. -/
def MAX_LINKS_PER_MESSAGE : Nat := 20

/-- The `numBatches` of `sendProcessedUrlToServer`. A `std::vector` of strings
holds fewer than `2 ^ 59` elements, so the index arithmetic of the batch loop
does not wrap and is done on natural numbers. -/
def numBatches (links : List Str) : Nat :=
  (links.length + MAX_LINKS_PER_MESSAGE - 1) / MAX_LINKS_PER_MESSAGE

/-- The links of round `batch` of the batch loop: those at the indices from
`startIdx` up to, not including, `endIdx`. -/
def linkBatch (links : List Str) (batch : Nat) : List Str :=
  let startIdx := batch * MAX_LINKS_PER_MESSAGE
  let endIdx := min (startIdx + MAX_LINKS_PER_MESSAGE) links.length
  (links.drop startIdx).take (endIdx - startIdx)

/-- The `linksStr` of one round: the links in double quotes, separated by
commas. -/
def linksStr (batchLinks : List Str) : Str :=
  ",".toList.intercalate (batchLinks.map (fun link => [dq] ++ link ++ [dq]))

/-- `std::to_string` of a `size_t`. -/
def natToString (n : Nat) : Str := (toString n).toList

/-- The `linksMsg` of the round that is numbered `number` of `total` and
carries `batchLinks`. -/
def linksMessage (url : Str) (number total : Nat) (batchLinks : List Str) : Str :=
  "LINKS:".toList ++ natToString number ++ "/".toList ++ natToString total
    ++ ":\x7burl:".toList ++ [dq] ++ url ++ [dq] ++ ",links:[".toList
    ++ linksStr batchLinks ++ "]\x7d".toList

/-- What a call of `sendProcessedUrlToServer` leaves: the messages it has
passed to `send`, in order, its result, and the globals. -/
structure Report where
  frames : List Str
  success : Bool
  worker : Worker
  deriving DecidableEq, Repr

/-- The treatment of doubled answers such as `ACKACK`. -/
def ackNormalised (response : Str) : Str :=
  if startsWith "ACK".toList response && decide (3 < response.length) then "ACK".toList
  else response

/-- An answer `URL:...` to a `PROCESSED` or `LINKS` message: the URL is kept
for the next `getUrlFromServer`, if it is valid after repair. -/
def storeUrl (response : Str) (w : Worker) : Worker :=
  let nextUrl := fixMalformedUrl (substrFrom response 4)
  if isValidUrl nextUrl then { w with lastReceivedUrl := nextUrl } else w

/-- The batch loop of `sendProcessedUrlToServer` over the rounds still to run;
`net batch` is the exchange of round `batch`. -/
def sendLinkBatches (url : Str) (links : List Str) (net : Nat → Exchange) :
    List Nat → Worker → Report
  | [], w => { frames := [], success := true, worker := w }
  | batch :: rest, w =>
    let linksMsg := linksMessage url (batch + 1) (numBatches links) (linkBatch links batch)
    match net batch with
    | Exchange.sendError => { frames := [linksMsg], success := false, worker := w }
    | Exchange.noReply => { frames := [linksMsg], success := false, worker := w }
    | Exchange.reply text =>
      let response := ackNormalised text
      if response = "ACK".toList then
        let r := sendLinkBatches url links net rest w
        { r with frames := linksMsg :: r.frames }
      else if response = "SHUTDOWN".toList then
        { frames := [linksMsg], success := false, worker := { w with shouldStop := true } }
      else if startsWith "URL:".toList response then
        let r := sendLinkBatches url links net rest (storeUrl response w)
        { r with frames := linksMsg :: r.frames }
      else
        let r := sendLinkBatches url links net rest w
        { r with frames := linksMsg :: r.frames }

/-- The part of `sendProcessedUrlToServer` after the `PROCESSED` message has
been answered. -/
def sendLinks (url : Str) (links : List Str) (net : Nat → Exchange) (w : Worker) : Report :=
  if links ≠ [] then sendLinkBatches url links net (List.range (numBatches links)) w
  else { frames := [], success := true, worker := w }

/-- `sendProcessedUrlToServer`; `initial` is the exchange of the `PROCESSED`
message, `net batch` that of round `batch` of the batch loop. -/
def sendProcessedUrlToServer (url : Str) (book : Book) (links : List Str)
    (initial : Exchange) (net : Nat → Exchange) (w : Worker) : Report :=
  let initialMsg := processedMessage url book
  match initial with
  | Exchange.sendError => { frames := [initialMsg], success := false, worker := w }
  | Exchange.noReply => { frames := [initialMsg], success := false, worker := w }
  | Exchange.reply text =>
    let response := ackNormalised text
    if response = "ACK".toList then
      let r := sendLinks url links net w
      { r with frames := initialMsg :: r.frames }
    else if startsWith "URL:".toList response then
      let r := sendLinks url links net (storeUrl response w)
      { r with frames := initialMsg :: r.frames }
    else if response = "SHUTDOWN".toList then
      { frames := [initialMsg], success := false, worker := { w with shouldStop := true } }
    else { frames := [initialMsg], success := false, worker := w }

/-- The `LINKS` frames among the messages of a report. -/
def linksFrames (r : Report) : List Str :=
  r.frames.filter (fun frame => startsWith "LINKS:".toList frame)

/-! ## `worker.cpp`: the loops of `main` -/

/-- `Book()`: every field empty. -/
def Book.empty : Book := { title := [], price := [], rating := [], url := [] }

/-- How the crawl of one page ends: the 60-second timer fires before
`crawl_page_with_html` returns, or the page is crawled in time and gives a
book, the HTML, and the links `find_all_links` extracts from it. -/
inductive CrawlOutcome
  | timedOut
  | finished (book : Book) (html : Str) (links : List Str)
  deriving DecidableEq, Repr

/-- What one pass through the inner loop of `main` meets: the two exchanges of
`getUrlFromServer`, the outcome of the crawl, and the exchanges of each attempt
to report (`initial attempt` for the `PROCESSED` message, `net attempt batch`
for the batch loop). -/
structure Pass where
  first : Exchange
  second : Exchange
  crawl : CrawlOutcome
  initial : Nat → Exchange
  net : Nat → Nat → Exchange

/-- The retry loop around `sendProcessedUrlToServer`; the first argument is
`retries`. -/
def reportLoop (url : Str) (book : Book) (links : List Str) (p : Pass) :
    Nat → Nat → Worker → Bool × Worker
  | 0, _, w => (false, w)
  | retries + 1, attempt, w =>
    if w.shouldStop then (false, w)
    else
      let r := sendProcessedUrlToServer url book links (p.initial attempt) (p.net attempt) w
      if r.success then (true, r.worker)
      else reportLoop url book links p retries (attempt + 1) r.worker

/-- The block of the inner loop that bounds the set of processed URLs. -/
def trimProcessedUrls (w : Worker) : Worker :=
  if 10000 < w.processedUrls.length then
    { w with processedUrls := if w.startUrl ≠ [] then setInsert w.startUrl [] else [] }
  else w

/-- One pass through the body of the inner loop of `main`: whether the pass
leaves the loop through its `break`, and the globals afterwards. -/
def crawlPass (p : Pass) (w : Worker) : Bool × Worker :=
  let got := getUrlFromServer p.first p.second w
  if got.1 = [] then (false, got.2)
  else
    let seen := hasUrlBeenProcessed got.1 got.2.processedUrls
    let w2 := { got.2 with processedUrls := seen.2 }
    if seen.1 then
      (false,
        (sendProcessedUrlToServer got.1 Book.empty [] (p.initial 0) (p.net 0) w2).worker)
    else
      match p.crawl with
      | CrawlOutcome.timedOut => (true, { w2 with shouldStop := true })
      | CrawlOutcome.finished book html found =>
        if w2.shouldStop then (true, w2)
        else
          let links := if html ≠ [] then found else []
          (false, trimProcessedUrls (reportLoop got.1 book links p 3 0 w2).2)

/-- The inner loop of `main` over the passes it meets: the globals when the
loop has ended, `none` when it is still running after the last pass given. -/
def crawlLoop : List Pass → Worker → Option Worker
  | [], w => if w.shouldStop then some w else none
  | p :: ps, w =>
    if w.shouldStop then some w
    else
      let r := crawlPass p w
      if r.1 then some r.2 else crawlLoop ps r.2

/-- `getBaseUrl` of `worker.cpp`. -/
def getBaseUrl (hostname : Str) : Str :=
  if startsWith "http://".toList hostname || startsWith "https://".toList hostname then hostname
  else "http://".toList ++ hostname

/-- How one round of the outer loop of `main` ends: the connection attempt
failed and is repeated after 5 seconds; the process exits; or the worker waits
5 seconds and connects again. -/
inductive Outcome
  | retryConnect
  | exitProcess
  | reconnect
  deriving DecidableEq, Repr

/-- The end of a round of the outer loop, after the inner loop: the socket is
closed, and the stop flag decides between leaving the outer loop and
connecting again. -/
def afterCrawlLoop (w : Worker) : Outcome :=
  if w.shouldStop then Outcome.exitProcess else Outcome.reconnect

/-- One round of the outer loop of `main`: `connected` tells whether
`connectToServer` returned a socket; `none` while the inner loop is still
running after the last pass given. The reporter thread, which touches the
globals only by setting the stop flag, is not part of the model. -/
def mainRound (hostname : Str) (connected : Bool) (passes : List Pass) (w : Worker) :
    Option Outcome :=
  let w0 := { w with shouldStop := false }
  if !connected then some Outcome.retryConnect
  else (crawlLoop passes { w0 with startUrl := getBaseUrl hostname }).map afterCrawlLoop

/-- A pass that fails at the `send` of `GET_URL`. -/
def sendErrorPass : Pass where
  first := Exchange.sendError
  second := Exchange.noReply
  crawl := CrawlOutcome.timedOut
  initial := fun _ => Exchange.noReply
  net := fun _ _ => Exchange.noReply

/-- A pass that is handed `http://books.toscrape.com/a` and whose crawl runs
into the 60-second timer. -/
def crawlTimeoutPass : Pass where
  first := Exchange.reply "URL:http://books.toscrape.com/a".toList
  second := Exchange.noReply
  crawl := CrawlOutcome.timedOut
  initial := fun _ => Exchange.noReply
  net := fun _ _ => Exchange.noReply

/-- The book of the first end-to-end scenario. -/
def sampleBookTen : Book where
  title := "A".toList
  price := "£10.00".toList
  rating := "Three".toList
  url := "http://books.toscrape.com/a".toList

theorem mem_setInsert {x a : Str} {s : List Str} :
    x ∈ setInsert a s ↔ x = a ∨ x ∈ s := by
  induction s with
  | nil => simp [setInsert]
  | cons y ys ih =>
    unfold setInsert
    by_cases h1 : a = y
    · subst h1
      simp only [if_true, List.mem_cons]
      tauto
    · by_cases h2 : strLt a y = true
      · simp [h1, h2]
      · rw [if_neg h1, if_neg h2]
        simp only [List.mem_cons, ih]
        tauto

theorem mem_setErase {x a : Str} {s : List Str} :
    x ∈ setErase a s ↔ x ∈ s ∧ x ≠ a := by
  simp [setErase]

theorem disjoint_new (host start : Str) :
    QueuedProcessedDisjoint (UrlQueueManager.new host start) := by
  intro c hc
  simp [UrlQueueManager.new] at hc

theorem disjoint_setSeedUrl (url : Str) (m : UrlQueueManager) :
    QueuedProcessedDisjoint (setSeedUrl url m) := by
  intro c hc
  simp [setSeedUrl] at hc

theorem disjoint_addUrl (url : Str) (m : UrlQueueManager)
    (h : QueuedProcessedDisjoint m) : QueuedProcessedDisjoint (addUrl url m) := by
  unfold addUrl
  simp only
  split
  · exact h
  · split
    · exact h
    · split
      · exact h
      · rename_i hp _ _
        intro c hc
        simp only [mem_setInsert] at hc
        rcases hc with rfl | hc
        · exact hp
        · exact h c hc

theorem disjoint_addUrlsStep (acc : UrlQueueManager × Nat × Nat) (url : Str)
    (h : QueuedProcessedDisjoint acc.1) :
    QueuedProcessedDisjoint (addUrlsStep acc url).1 := by
  unfold addUrlsStep
  simp only
  split
  · exact h
  · split
    · exact h
    · rename_i hpq _
      intro c hc
      simp only [mem_setInsert] at hc
      rcases hc with rfl | hc
      · exact fun hp => hpq (Or.inl hp)
      · exact h c hc

theorem disjoint_foldl_addUrlsStep (urls : List Str) (acc : UrlQueueManager × Nat × Nat)
    (h : QueuedProcessedDisjoint acc.1) :
    QueuedProcessedDisjoint (urls.foldl addUrlsStep acc).1 := by
  induction urls generalizing acc with
  | nil => exact h
  | cons u us ih => exact ih _ (disjoint_addUrlsStep acc u h)

theorem disjoint_addUrls (urls : List Str) (m : UrlQueueManager)
    (h : QueuedProcessedDisjoint m) : QueuedProcessedDisjoint (addUrls urls m) :=
  disjoint_foldl_addUrlsStep urls (m, 0, 0) h

theorem disjoint_getNextUrl (workerId : Int) (m : UrlQueueManager)
    (h : QueuedProcessedDisjoint m) :
    QueuedProcessedDisjoint (getNextUrl workerId m).2 := by
  unfold getNextUrl
  split
  · exact h
  · intro c hc
    simp only [mem_setErase] at hc
    exact h c hc.1

theorem disjoint_markProcessed (url : Str) (m : UrlQueueManager)
    (h : QueuedProcessedDisjoint m) : QueuedProcessedDisjoint (markProcessed url m) := by
  unfold markProcessed
  simp only
  split
  · exact h
  · intro c hc hp
    simp only [mem_setInsert] at hp
    split at hc
    · simp only [mem_setErase] at hc
      rcases hp with rfl | hp
      · exact hc.2 rfl
      · exact h c hc.1 hp
    · rename_i hq
      rcases hp with rfl | hp
      · exact hq hc
      · exact h c hc hp

theorem reassign_foldl_queuedUrls (urls : List Str) (m : UrlQueueManager) :
    (urls.foldl reassignStep m).queuedUrls = m.queuedUrls := by
  induction urls generalizing m with
  | nil => rfl
  | cons u us ih => simp only [List.foldl_cons, ih]; rfl

theorem reassign_foldl_processedUrls (urls : List Str) (m : UrlQueueManager) :
    (urls.foldl reassignStep m).processedUrls = m.processedUrls := by
  induction urls generalizing m with
  | nil => rfl
  | cons u us ih => simp only [List.foldl_cons, ih]; rfl

theorem disjoint_reassign (workerId : Int) (m : UrlQueueManager)
    (h : QueuedProcessedDisjoint m) :
    QueuedProcessedDisjoint (reassignUrlsFromWorker workerId m) := by
  intro c hc
  unfold reassignUrlsFromWorker at hc ⊢
  rw [reassign_foldl_queuedUrls] at hc
  rw [reassign_foldl_processedUrls]
  exact h c hc

theorem disjoint_addSeedUrl (url : Str) (m : UrlQueueManager)
    (h : QueuedProcessedDisjoint m) : QueuedProcessedDisjoint (addSeedUrl url m) := by
  intro c hc hp
  simp only [addSeedUrl, mem_setInsert] at hc hp
  have hp1 : c ∈ m.processedUrls ∧ c ≠ canonicalize_url url := by
    split at hp
    · exact mem_setErase.1 hp
    · rename_i hn
      exact ⟨hp, fun e => hn (e ▸ hp)⟩
  rcases hc with rfl | hc
  · exact hp1.2 rfl
  · have hq : c ∈ m.queuedUrls := by
      split at hc
      · exact (mem_setErase.1 hc).1
      · exact hc
    exact h c hq hp1.1

theorem disjoint_apply (op : QueueOp) (m : UrlQueueManager)
    (h : QueuedProcessedDisjoint m) : QueuedProcessedDisjoint (op.apply m).2 := by
  cases op with
  | setSeedUrl url => exact disjoint_setSeedUrl url m
  | addSeedUrl url => exact disjoint_addSeedUrl url m h
  | addUrl url => exact disjoint_addUrl url m h
  | addUrls urls => exact disjoint_addUrls urls m h
  | getNextUrl workerId => exact disjoint_getNextUrl workerId m h
  | markProcessed url => exact disjoint_markProcessed url m h
  | reassignUrlsFromWorker workerId => exact disjoint_reassign workerId m h

theorem disjoint_runOps (ops : List QueueOp) (m : UrlQueueManager)
    (h : QueuedProcessedDisjoint m) : QueuedProcessedDisjoint (runOps ops m) := by
  induction ops generalizing m with
  | nil => exact h
  | cons op ops ih => exact ih _ (disjoint_apply op m h)

/-! ## C1: membership exclusivity -/

/-- C1, as stated, fails: after `addUrl(u)`, `getNextUrl(1)`, `addUrl(u)` with
`u = http://books.toscrape.com/a` on the manager built with the default
arguments, the canonical form of `u` is in `queuedUrls` and is the canonical
form of a key of `assignedUrls`. -/
theorem c1_assigned_url_requeued :
    canonicalize_url "http://books.toscrape.com/a".toList ∈
        (runOps [QueueOp.addUrl "http://books.toscrape.com/a".toList,
                 QueueOp.getNextUrl 1,
                 QueueOp.addUrl "http://books.toscrape.com/a".toList]
          UrlQueueManager.default).queuedUrls
      ∧ canonicalize_url "http://books.toscrape.com/a".toList ∈
        assignedCanonical
          (runOps [QueueOp.addUrl "http://books.toscrape.com/a".toList,
                   QueueOp.getNextUrl 1,
                   QueueOp.addUrl "http://books.toscrape.com/a".toList]
            UrlQueueManager.default) := by
  decide

/-- C1, amended: after any finite sequence of queue-engine calls on a manager
constructed with empty collections, no canonical URL is in both `queuedUrls`
and `processedUrls`. -/
theorem c1_queued_processed_exclusive (host start : Str) (ops : List QueueOp) (c : Str) :
    ¬ (c ∈ (runOps ops (UrlQueueManager.new host start)).queuedUrls
        ∧ c ∈ (runOps ops (UrlQueueManager.new host start)).processedUrls) :=
  fun h => disjoint_runOps ops _ (disjoint_new host start) c h.1 h.2

/-! ## C2: no URL is handed out twice -/

theorem addUrlsStep_fst (acc : UrlQueueManager × Nat × Nat) (url : Str) :
    (addUrlsStep acc url).1 = addUrl url acc.1 := by
  unfold addUrlsStep addUrl
  simp only
  by_cases hp : canonicalize_url url ∈ acc.1.processedUrls
  · simp [hp]
  · by_cases hq : canonicalize_url url ∈ acc.1.queuedUrls
    · simp [hp, hq]
    · by_cases hh : strFind acc.1.hostname url = none
      · simp [hp, hq, hh]
      · simp [hp, hq, hh]

theorem foldl_addUrlsStep_fst (urls : List Str) (acc : UrlQueueManager × Nat × Nat) :
    (urls.foldl addUrlsStep acc).1 = urls.foldl (fun m u => addUrl u m) acc.1 := by
  induction urls generalizing acc with
  | nil => rfl
  | cons u us ih => simp only [List.foldl_cons, ih, addUrlsStep_fst]

theorem addUrls_eq_foldl (urls : List Str) (m : UrlQueueManager) :
    addUrls urls m = urls.foldl (fun m u => addUrl u m) m :=
  foldl_addUrlsStep_fst urls (m, 0, 0)

theorem addUrl_processedUrls (url : Str) (m : UrlQueueManager) :
    (addUrl url m).processedUrls = m.processedUrls := by
  unfold addUrl
  simp only
  split
  · rfl
  · split
    · rfl
    · split <;> rfl

theorem fresh_addUrl (url : Str) (m : UrlQueueManager) (out : List Str)
    (h : QueueFresh m out)
    (hadd : canonicalize_url url ∈ out → canonicalize_url url ∈ m.processedUrls) :
    QueueFresh (addUrl url m) out := by
  unfold addUrl
  simp only
  split
  · exact h
  · split
    · exact h
    · split
      · exact h
      · rename_i hp hq _
        have hnew : canonicalize_url url ∉ m.urlQueue.map canonicalize_url := by
          intro hmem
          obtain ⟨q, hq1, hq2⟩ := List.mem_map.1 hmem
          rcases h.queue_known q hq1 with h1 | h1
          · exact hq (hq2 ▸ h1)
          · exact hp (hq2 ▸ h1)
        refine ⟨?_, ?_, ?_, h.out_nodup⟩
        · simp only [List.map_append, List.map_cons, List.map_nil]
          refine List.Nodup.append h.queue_nodup (List.nodup_singleton _) ?_
          intro a ha hb
          rw [List.mem_singleton] at hb
          exact hnew (hb ▸ ha)
        · intro q hq1
          simp only [List.mem_append, List.mem_singleton] at hq1
          simp only [mem_setInsert]
          rcases hq1 with hq1 | rfl
          · rcases h.queue_known q hq1 with h1 | h1
            · exact Or.inl (Or.inr h1)
            · exact Or.inr h1
          · exact Or.inl (Or.inl rfl)
        · intro q hq1
          simp only [List.mem_append, List.mem_singleton] at hq1
          rcases hq1 with hq1 | rfl
          · exact h.queue_fresh q hq1
          · exact fun ho => hp (hadd ho)

theorem fresh_foldl_addUrl (urls : List Str) (m : UrlQueueManager) (out : List Str)
    (h : QueueFresh m out)
    (hadd : ∀ url ∈ urls,
      canonicalize_url url ∈ out → canonicalize_url url ∈ m.processedUrls) :
    QueueFresh (urls.foldl (fun m u => addUrl u m) m) out := by
  induction urls generalizing m with
  | nil => exact h
  | cons u us ih =>
    simp only [List.foldl_cons]
    apply ih
    · exact fresh_addUrl u m out h (hadd u (List.mem_cons_self _ _))
    · intro url hu ho
      rw [addUrl_processedUrls]
      exact hadd url (List.mem_cons_of_mem _ hu) ho

theorem fresh_getNextUrl (workerId : Int) (m : UrlQueueManager) (out : List Str)
    (h : QueueFresh m out) :
    QueueFresh (getNextUrl workerId m).2
      (out ++ (getNextUrl workerId m).1.toList.map canonicalize_url) := by
  unfold getNextUrl
  cases hq : m.urlQueue with
  | nil =>
    simp only [Option.toList, List.map_nil, List.append_nil]
    exact h
  | cons url rest =>
    have hnd := h.queue_nodup
    rw [hq, List.map_cons, List.nodup_cons] at hnd
    have hne : ∀ q ∈ rest, canonicalize_url q ≠ canonicalize_url url := by
      intro q hq1 e
      exact hnd.1 (e ▸ List.mem_map_of_mem _ hq1)
    simp only [Option.toList, List.map_cons, List.map_nil]
    refine ⟨hnd.2, ?_, ?_, ?_⟩
    · intro q hq1
      simp only [mem_setErase]
      rcases h.queue_known q (hq ▸ List.mem_cons_of_mem _ hq1) with h1 | h1
      · exact Or.inl ⟨h1, hne q hq1⟩
      · exact Or.inr h1
    · intro q hq1
      simp only [List.mem_append, List.mem_singleton, not_or]
      exact ⟨h.queue_fresh q (hq ▸ List.mem_cons_of_mem _ hq1), hne q hq1⟩
    · refine List.Nodup.append h.out_nodup (List.nodup_singleton _) ?_
      intro a ha hb
      rw [List.mem_singleton] at hb
      exact h.queue_fresh url (hq ▸ List.mem_cons_self _ _) (hb ▸ ha)

theorem fresh_markProcessed (url : Str) (m : UrlQueueManager) (out : List Str)
    (h : QueueFresh m out) : QueueFresh (markProcessed url m) out := by
  unfold markProcessed
  simp only
  split
  · exact h
  · refine ⟨h.queue_nodup, ?_, h.queue_fresh, h.out_nodup⟩
    intro q hq1
    simp only [mem_setInsert]
    by_cases e : canonicalize_url q = canonicalize_url url
    · exact Or.inr (Or.inl e)
    · rcases h.queue_known q hq1 with h1 | h1
      · left
        split
        · exact mem_setErase.2 ⟨h1, e⟩
        · exact h1
      · exact Or.inr (Or.inr h1)

theorem fresh_apply (op : QueueOp) (m : UrlQueueManager) (out : List Str)
    (hop : op.isCrawlOp = true) (hadd : addAvoidsInFlight out m op = true)
    (h : QueueFresh m out) :
    QueueFresh (op.apply m).2 (out ++ (op.apply m).1.toList.map canonicalize_url) := by
  cases op with
  | setSeedUrl url => simp [QueueOp.isCrawlOp] at hop
  | addSeedUrl url => simp [QueueOp.isCrawlOp] at hop
  | reassignUrlsFromWorker workerId => simp [QueueOp.isCrawlOp] at hop
  | addUrl url =>
    simp only [addAvoidsInFlight, decide_eq_true_eq] at hadd
    simpa [QueueOp.apply] using fresh_addUrl url m out h hadd
  | addUrls urls =>
    simp only [addAvoidsInFlight, decide_eq_true_eq] at hadd
    simpa [QueueOp.apply, addUrls_eq_foldl] using fresh_foldl_addUrl urls m out h hadd
  | getNextUrl workerId => exact fresh_getNextUrl workerId m out h
  | markProcessed url =>
    simpa [QueueOp.apply] using fresh_markProcessed url m out h

theorem handedOut_cons (op : QueueOp) (ops : List QueueOp) (m : UrlQueueManager) :
    handedOut (op :: ops) m = (op.apply m).1.toList ++ handedOut ops (op.apply m).2 := by
  simp only [handedOut]
  cases (op.apply m).1 <;> rfl

theorem handedOut_nodup_from (ops : List QueueOp) (m : UrlQueueManager) (out : List Str)
    (hops : ∀ op ∈ ops, op.isCrawlOp = true)
    (hadd : addsAvoidInFlight ops m out = true) (h : QueueFresh m out) :
    (out ++ (handedOut ops m).map canonicalize_url).Nodup := by
  induction ops generalizing m out with
  | nil => simpa [handedOut] using h.out_nodup
  | cons op ops ih =>
    simp only [addsAvoidInFlight, Bool.and_eq_true] at hadd
    rw [handedOut_cons, List.map_append, ← List.append_assoc]
    exact ih _ _ (fun o ho => hops o (List.mem_cons_of_mem _ ho)) hadd.2
      (fresh_apply op m out (hops op (List.mem_cons_self _ _)) hadd.1 h)

theorem fresh_new (host start : Str) : QueueFresh (UrlQueueManager.new host start) [] := by
  refine ⟨?_, ?_, ?_, List.nodup_nil⟩ <;> simp [UrlQueueManager.new]

/-- C2, as stated, fails: `addUrl(u)`, `getNextUrl(1)`, `addUrl(u)`,
`getNextUrl(2)` on the default manager hands `u = http://books.toscrape.com/a`
out twice. -/
theorem c2_url_handed_out_twice :
    handedOut [QueueOp.addUrl "http://books.toscrape.com/a".toList,
               QueueOp.getNextUrl 1,
               QueueOp.addUrl "http://books.toscrape.com/a".toList,
               QueueOp.getNextUrl 2]
        UrlQueueManager.default
      = ["http://books.toscrape.com/a".toList, "http://books.toscrape.com/a".toList]
    ∧ ¬ ((handedOut [QueueOp.addUrl "http://books.toscrape.com/a".toList,
               QueueOp.getNextUrl 1,
               QueueOp.addUrl "http://books.toscrape.com/a".toList,
               QueueOp.getNextUrl 2]
        UrlQueueManager.default).map canonicalize_url).Nodup := by
  decide

/-- C2, amended: in any sequence of `addUrl`, `addUrls`, `getNextUrl` and
`markProcessed` calls on a manager constructed with empty collections, in which
no add call offers a URL whose canonical form was handed out earlier and is not
yet processed, the URLs handed out by `getNextUrl` have pairwise distinct
canonical forms. -/
theorem c2_handed_out_distinct (host start : Str) (ops : List QueueOp)
    (hops : ∀ op ∈ ops, op.isCrawlOp = true)
    (hadd : addsAvoidInFlight ops (UrlQueueManager.new host start) [] = true) :
    ((handedOut ops (UrlQueueManager.new host start)).map canonicalize_url).Nodup := by
  simpa using handedOut_nodup_from ops _ [] hops hadd (fresh_new host start)

/-- C2, amended, at a concrete crawl: `sampleCrawl` hands out two URLs. -/
theorem c2_handed_out_distinct_witness :
    (∀ op ∈ sampleCrawl, op.isCrawlOp = true)
    ∧ addsAvoidInFlight sampleCrawl
        (UrlQueueManager.new "books.toscrape.com".toList
          "https://books.toscrape.com/".toList) [] = true
    ∧ handedOut sampleCrawl
        (UrlQueueManager.new "books.toscrape.com".toList
          "https://books.toscrape.com/".toList)
      = ["http://books.toscrape.com/a".toList, "http://books.toscrape.com/b".toList]
    ∧ ((handedOut sampleCrawl
        (UrlQueueManager.new "books.toscrape.com".toList
          "https://books.toscrape.com/".toList)).map canonicalize_url).Nodup :=
  ⟨by decide, by decide, by decide,
    c2_handed_out_distinct _ _ sampleCrawl (by decide) (by decide)⟩

/-! ## C3: reassignment moves exactly the URLs of one worker -/

theorem reassign_foldl_urlQueue (urls : List Str) (m : UrlQueueManager) :
    (urls.foldl reassignStep m).urlQueue = m.urlQueue ++ urls := by
  induction urls generalizing m with
  | nil => simp
  | cons u us ih => simp [List.foldl_cons, ih, reassignStep]

theorem reassign_foldl_assignedUrls (urls : List Str) (m : UrlQueueManager) :
    (urls.foldl reassignStep m).assignedUrls
      = m.assignedUrls.filter (fun e => decide (e.1 ∉ urls)) := by
  induction urls generalizing m with
  | nil => simp
  | cons u us ih =>
    simp only [List.foldl_cons, ih, reassignStep, mapErase, List.filter_filter]
    apply List.filter_congr
    intro e _
    simp only [List.mem_cons, not_or, ne_eq, decide_not, Bool.decide_and]
    exact Bool.and_comm _ _

theorem key_held_iff (l : List (Str × Int)) (workerId : Int)
    (hkeys : (l.map (·.1)).Nodup) (e : Str × Int) (he : e ∈ l) :
    e.1 ∈ (l.filter (·.2 = workerId)).map (·.1) ↔ e.2 = workerId := by
  constructor
  · intro h
    obtain ⟨e', he', hk⟩ := List.mem_map.1 h
    rw [List.mem_filter] at he'
    have := List.inj_on_of_nodup_map hkeys he'.1 he hk
    subst this
    simpa using he'.2
  · intro h
    exact List.mem_map.2 ⟨e, List.mem_filter.2 ⟨he, by simpa using h⟩, rfl⟩

theorem reassign_assignedUrls (workerId : Int) (m : UrlQueueManager)
    (hkeys : (m.assignedUrls.map (·.1)).Nodup) :
    (reassignUrlsFromWorker workerId m).assignedUrls
      = m.assignedUrls.filter (fun e => decide (e.2 ≠ workerId)) := by
  unfold reassignUrlsFromWorker urlsToReassign
  rw [reassign_foldl_assignedUrls]
  apply List.filter_congr
  intro e he
  have := key_held_iff m.assignedUrls workerId hkeys e he
  by_cases h : e.2 = workerId
  · simp [h, this.2 h]
  · have hn : e.1 ∉ (m.assignedUrls.filter (·.2 = workerId)).map (·.1) :=
      fun hm => h (this.1 hm)
    simp only [hn, not_false_eq_true, decide_True, ne_eq, h]

/-- C3: when the keys of `assignedUrls` are distinct (it is a map) and exactly
`k` entries are held by worker `w`, then after `reassignUrlsFromWorker(w)` no
entry is held by `w`, the entries of the other workers are the same as before,
and `urlQueue` is the old queue followed by exactly those `k` URLs. -/
theorem c3_reassignment_complete (m : UrlQueueManager) (w : Int) (k : Nat)
    (hkeys : (m.assignedUrls.map (·.1)).Nodup)
    (hk : (m.assignedUrls.filter (fun e => decide (e.2 = w))).length = k) :
    (∀ e ∈ (reassignUrlsFromWorker w m).assignedUrls, e.2 ≠ w)
    ∧ (∀ e : Str × Int, e.2 ≠ w →
        (e ∈ (reassignUrlsFromWorker w m).assignedUrls ↔ e ∈ m.assignedUrls))
    ∧ (reassignUrlsFromWorker w m).assignedUrls
        = m.assignedUrls.filter (fun e => decide (e.2 ≠ w))
    ∧ (reassignUrlsFromWorker w m).urlQueue
        = m.urlQueue ++ (m.assignedUrls.filter (fun e => decide (e.2 = w))).map (·.1)
    ∧ (reassignUrlsFromWorker w m).urlQueue.length = m.urlQueue.length + k := by
  have ha := reassign_assignedUrls w m hkeys
  have hq : (reassignUrlsFromWorker w m).urlQueue
      = m.urlQueue ++ (m.assignedUrls.filter (fun e => decide (e.2 = w))).map (·.1) := by
    unfold reassignUrlsFromWorker urlsToReassign
    rw [reassign_foldl_urlQueue]
  refine ⟨?_, ?_, ha, hq, ?_⟩
  · intro e he
    rw [ha, List.mem_filter] at he
    simpa using he.2
  · intro e hne
    rw [ha, List.mem_filter]
    simp [hne]
  · rw [hq, List.length_append, List.length_map, hk]

/-- C3 at a concrete state: worker 1 holds one URL of `sampleHeld`. -/
theorem c3_reassignment_complete_witness :
    (sampleHeld.assignedUrls.map (·.1)).Nodup
    ∧ (sampleHeld.assignedUrls.filter (fun e => decide (e.2 = 1))).length = 1
    ∧ (reassignUrlsFromWorker 1 sampleHeld).assignedUrls = []
    ∧ (reassignUrlsFromWorker 1 sampleHeld).urlQueue
        = ["http://books.toscrape.com/a".toList] :=
  ⟨by decide, by decide,
    by
      have h := (c3_reassignment_complete sampleHeld 1 1 (by decide) (by decide)).2.2.1
      rw [h]; decide,
    by
      have h := (c3_reassignment_complete sampleHeld 1 1 (by decide) (by decide)).2.2.2.1
      rw [h]; decide⟩

/-! ## C4: reassigned URLs and the queued set -/

/-- C4 on the code: in `sampleHeld` worker 1 holds `http://books.toscrape.com/a`;
after `reassignUrlsFromWorker(1)` the URL is back in `urlQueue`, but its
canonical form is not in `queuedUrls`, and a later `addUrl` of the same URL
puts it into the queue a second time. -/
theorem c4_reassigned_url_not_queued :
    sampleHeld.assignedUrls = [("http://books.toscrape.com/a".toList, 1)]
    ∧ (reassignUrlsFromWorker 1 sampleHeld).urlQueue
        = ["http://books.toscrape.com/a".toList]
    ∧ canonicalize_url "http://books.toscrape.com/a".toList
        ∉ (reassignUrlsFromWorker 1 sampleHeld).queuedUrls
    ∧ (addUrl "http://books.toscrape.com/a".toList
          (reassignUrlsFromWorker 1 sampleHeld)).urlQueue
        = ["http://books.toscrape.com/a".toList, "http://books.toscrape.com/a".toList] := by
  decide

/-! ## C5: the close path of the connection handler -/

theorem handleDisconnect_urlQueueManager (sess : Session) (c : Coordinator) :
    (handleDisconnect sess c).urlQueueManager = c.urlQueueManager := by
  unfold handleDisconnect
  split <;> rfl

/-- C5 on the code: in `sampleCoordinator` worker 1 is registered and holds
`http://books.toscrape.com/a`; the close path of its connection removes the
worker from the registry, but the URL stays assigned to worker 1 and does not
return to `urlQueue`. -/
theorem c5_disconnect_keeps_assignment :
    sampleCoordinator.workerRegistry.workers.map (·.1) = [1]
    ∧ (handleDisconnect { workerId := 1, registered := true }
        sampleCoordinator).workerRegistry.workers = []
    ∧ (handleDisconnect { workerId := 1, registered := true }
        sampleCoordinator).urlQueueManager.assignedUrls
        = [("http://books.toscrape.com/a".toList, 1)]
    ∧ (handleDisconnect { workerId := 1, registered := true }
        sampleCoordinator).urlQueueManager.urlQueue = [] := by
  decide

/-! ## C6: the host filter of `addUrl` -/

/-- C6, as stated, fails: after the seed `https://www.books.toscrape.com/` the
crawl host is `www.books.toscrape.com`; the canonical host of
`https://www.books.toscrape.com/catalogue/page-2.html` is `books.toscrape.com`,
which differs from it, and `addUrl` puts the URL into `urlQueue` and
`queuedUrls`. -/
theorem c6_www_seed_url_enqueued :
    sampleWwwSeed.hostname = "www.books.toscrape.com".toList
    ∧ canonicalHost "https://www.books.toscrape.com/catalogue/page-2.html".toList
        = "books.toscrape.com".toList
    ∧ canonicalHost "https://www.books.toscrape.com/catalogue/page-2.html".toList
        ≠ sampleWwwSeed.hostname
    ∧ (addUrl "https://www.books.toscrape.com/catalogue/page-2.html".toList
        sampleWwwSeed).urlQueue
        = ["https://www.books.toscrape.com/catalogue/page-2.html".toList]
    ∧ (addUrl "https://www.books.toscrape.com/catalogue/page-2.html".toList
        sampleWwwSeed).queuedUrls
        = ["books.toscrape.com/catalogue/page-2.html".toList] := by
  decide

/-- C6, amended: for every manager and every URL `u` that does not contain the
current crawl host name, `addUrl(u)` leaves the manager, and so `urlQueue`,
`queuedUrls`, `assignedUrls` and `processedUrls`, unchanged. -/
theorem c6_host_filter (m : UrlQueueManager) (u : Str)
    (hhost : strFind m.hostname u = none) :
    addUrl u m = m
    ∧ (addUrl u m).urlQueue = m.urlQueue
    ∧ (addUrl u m).queuedUrls = m.queuedUrls
    ∧ (addUrl u m).assignedUrls = m.assignedUrls
    ∧ (addUrl u m).processedUrls = m.processedUrls := by
  have h : addUrl u m = m := by
    unfold addUrl
    simp [hhost]
  rw [h]
  exact ⟨rfl, rfl, rfl, rfl, rfl⟩

/-- C6, amended, at `http://example.com/books` offered to the manager built
with the default arguments. -/
theorem c6_host_filter_witness :
    strFind UrlQueueManager.default.hostname "http://example.com/books".toList = none
    ∧ addUrl "http://example.com/books".toList UrlQueueManager.default
        = UrlQueueManager.default :=
  ⟨by decide, (c6_host_filter UrlQueueManager.default "http://example.com/books".toList
    (by decide)).1⟩

/-- The host test of `addUrl` looks for the host name anywhere in the raw URL:
`http://evil.com/books.toscrape.com`, whose canonical host is `evil.com`, is put
into `urlQueue` and `queuedUrls` of a crawl of `books.toscrape.com`. -/
theorem addUrl_host_name_in_path :
    UrlQueueManager.default.hostname = "books.toscrape.com".toList
    ∧ canonicalHost "http://evil.com/books.toscrape.com".toList = "evil.com".toList
    ∧ (addUrl "http://evil.com/books.toscrape.com".toList
        UrlQueueManager.default).urlQueue
        = ["http://evil.com/books.toscrape.com".toList]
    ∧ (addUrl "http://evil.com/books.toscrape.com".toList
        UrlQueueManager.default).queuedUrls
        = ["evil.com/books.toscrape.com".toList] := by
  decide

/-! ## C7: seed reset -/

theorem afterFirst_eq (pat s : Str) :
    afterFirst pat s = (strFind pat s).map (fun p => s.drop (p + pat.length)) := by
  induction s with
  | nil =>
    unfold afterFirst strFind
    split <;> simp
  | cons c cs ih =>
    unfold afterFirst strFind
    split
    · simp
    · rw [ih, Option.map_map]
      congr 1
      funext p
      simp only [Function.comp_apply]
      rw [show p + 1 + pat.length = (p + pat.length) + 1 by omega, List.drop_succ_cons]

theorem strFind_char_take (ch : Char) (t : Str) :
    (match strFind [ch] t with
      | some p => t.take p
      | none => t) = t.takeWhile (· ≠ ch) := by
  induction t with
  | nil => simp [strFind]
  | cons c cs ih =>
    unfold strFind
    by_cases h : c = ch
    · subst h
      simp [List.isPrefixOf, List.takeWhile]
    · have hp : List.isPrefixOf [ch] (c :: cs) = false := by
        simp [List.isPrefixOf, Ne.symm h]
      simp only [hp, Bool.false_eq_true, if_false]
      rw [List.takeWhile_cons, if_pos (by simpa using h), ← ih]
      cases strFind [ch] cs <;> simp

theorem strFind_bound (pat s : Str) (p : Nat) (h : strFind pat s = some p) :
    p + pat.length ≤ s.length := by
  induction s generalizing p with
  | nil =>
    unfold strFind at h
    split at h
    · rename_i hp
      simp only [Option.some.injEq] at h
      subst h hp
      simp
    · simp at h
  | cons c cs ih =>
    unfold strFind at h
    split at h
    · rename_i hp
      simp only [Option.some.injEq] at h
      subst h
      have := (List.isPrefixOf_iff_prefix.1 hp).length_le
      simpa using this
    · cases hq : strFind pat cs with
      | none => simp [hq] at h
      | some q =>
        simp only [hq, Option.map_some', Option.some.injEq] at h
        subst h
        have := ih q hq
        simp only [List.length_cons]
        omega

theorem seedHostname_eq_hostOf (url : Str) : seedHostname url = hostOf url := by
  unfold seedHostname hostOf
  rw [afterFirst_eq, ← strFind_char_take]
  cases hp : strFind "://".toList url with
  | none =>
    simp only [Option.map_none', Option.getD_none, strFindFrom, Nat.not_lt_zero,
      if_false, List.drop_zero, Nat.add_zero]
    cases strFind ['/'] url with
    | none => simp [substrFrom]
    | some e => simp [substr]
  | some p =>
    have hb := strFind_bound _ _ _ hp
    have hlen : "://".toList.length = 3 := rfl
    rw [hlen] at hb
    simp only [Option.map_some', Option.getD_some, strFindFrom, hlen]
    rw [if_neg (by omega)]
    cases strFind ['/'] (url.drop (p + 3)) with
    | none => simp [substrFrom]
    | some e => simp [substr]

/-- C7: after `setSeedUrl(u)` the queue, the three URL sets and both item
collections are empty, the seed is `u`, and the host name is the text of `u`
after its first `://` (or from its start) up to the next `/` (or to its end). -/
theorem c7_seed_reset (u : Str) (m : UrlQueueManager) :
    (setSeedUrl u m).urlQueue = []
    ∧ (setSeedUrl u m).queuedUrls = []
    ∧ (setSeedUrl u m).assignedUrls = []
    ∧ (setSeedUrl u m).processedUrls = []
    ∧ (setSeedUrl u m).collectedItems = []
    ∧ (setSeedUrl u m).collectedBooks = []
    ∧ (setSeedUrl u m).startUrl = u
    ∧ (setSeedUrl u m).hostname = hostOf u :=
  ⟨rfl, rfl, rfl, rfl, rfl, rfl, rfl, seedHostname_eq_hostOf u⟩

/-! ## C8, C9: `canonicalize_url` -/

theorem tolower_idem (c : Char) : tolower (tolower c) = tolower c := by
  unfold tolower Char.toLower
  by_cases h : c.toNat ≥ 65 ∧ c.toNat ≤ 90
  · simp only [h, and_self, if_true]
    obtain ⟨h1, h2⟩ := h
    generalize c.toNat = n at h1 h2
    interval_cases n <;> rfl
  · simp only [h, if_false]

theorem stripProtocol_sublist (r : Str) : (stripProtocol r).Sublist r := by
  unfold stripProtocol substrFrom
  split
  · exact List.drop_sublist _ _
  · exact List.Sublist.refl _

theorem stripWww_sublist (r : Str) : (stripWww r).Sublist r := by
  unfold stripWww substrFrom
  split
  · exact List.drop_sublist _ _
  · exact List.Sublist.refl _

theorem stripTrailingSlash_sublist (r : Str) : (stripTrailingSlash r).Sublist r := by
  unfold stripTrailingSlash
  split
  · exact List.dropLast_sublist _
  · exact List.Sublist.refl _

theorem stripAnchor_eq (r : Str) : stripAnchor r = r.takeWhile (· ≠ '#') := by
  rw [← strFind_char_take]
  unfold stripAnchor substr
  cases strFind ['#'] r <;> simp

theorem stripAnchor_sublist (r : Str) : (stripAnchor r).Sublist r := by
  rw [stripAnchor_eq]
  exact List.takeWhile_sublist _

theorem stripQuery_eq (r : Str) :
    stripQuery r =
      if (!strContains "search".toList r && !strContains "filter".toList r) = true
      then r.takeWhile (· ≠ '?') else r := by
  rw [← strFind_char_take]
  unfold stripQuery substr
  cases strFind ['?'] r <;> simp

theorem stripQuery_sublist (r : Str) : (stripQuery r).Sublist r := by
  rw [stripQuery_eq]
  split
  · exact List.takeWhile_sublist _
  · exact List.Sublist.refl _

theorem takeWhile_ne_self (ch : Char) (r : Str) (h : ch ∉ r) :
    r.takeWhile (· ≠ ch) = r := by
  rw [List.takeWhile_eq_self_iff]
  intro x hx
  simpa using fun e : x = ch => h (e ▸ hx)

theorem not_mem_takeWhile_ne (ch : Char) (r : Str) : ch ∉ r.takeWhile (· ≠ ch) := by
  intro h
  simpa using List.mem_takeWhile_imp h

theorem stripQuery_idem (r : Str) : stripQuery (stripQuery r) = stripQuery r := by
  by_cases hc : (!strContains "search".toList r && !strContains "filter".toList r) = true
  · have h1 : stripQuery r = r.takeWhile (· ≠ '?') := by rw [stripQuery_eq, if_pos hc]
    rw [h1, stripQuery_eq]
    split
    · exact takeWhile_ne_self _ _ (not_mem_takeWhile_ne _ _)
    · rfl
  · have h1 : stripQuery r = r := by rw [stripQuery_eq, if_neg hc]
    rw [h1, h1]

theorem canonical_no_anchor (u : Str) : '#' ∉ canonicalize_url u := by
  unfold canonicalize_url
  intro h
  have h2 := (stripQuery_sublist _).subset h
  rw [stripAnchor_eq] at h2
  exact not_mem_takeWhile_ne _ _ h2

theorem canonical_lower (u : Str) : (canonicalize_url u).map tolower = canonicalize_url u := by
  have hsub : (canonicalize_url u).Sublist (u.map tolower) := by
    unfold canonicalize_url
    exact (stripQuery_sublist _).trans ((stripAnchor_sublist _).trans
      ((stripTrailingSlash_sublist _).trans ((stripWww_sublist _).trans
        (stripProtocol_sublist _))))
  have hfix : ∀ x ∈ canonicalize_url u, tolower x = x := by
    intro x hx
    obtain ⟨y, _, rfl⟩ := List.mem_map.1 (hsub.subset hx)
    exact tolower_idem y
  calc (canonicalize_url u).map tolower
      = (canonicalize_url u).map id := List.map_congr_left hfix
    _ = canonicalize_url u := List.map_id _

theorem canonical_stripQuery (u : Str) :
    stripQuery (canonicalize_url u) = canonicalize_url u := by
  unfold canonicalize_url
  exact stripQuery_idem _

/-- C8, as stated, fails: the canonical form of `http://books.toscrape.com//`
is `books.toscrape.com/`, whose canonical form is `books.toscrape.com`. -/
theorem c8_not_idempotent :
    canonicalize_url "http://books.toscrape.com//".toList = "books.toscrape.com/".toList
    ∧ canonicalize_url (canonicalize_url "http://books.toscrape.com//".toList)
        = "books.toscrape.com".toList
    ∧ canonicalize_url (canonicalize_url "http://books.toscrape.com//".toList)
        ≠ canonicalize_url "http://books.toscrape.com//".toList := by
  decide

/-- C8, amended: `canonicalize_url` applied to a canonical form gives it back
whenever that canonical form contains no `://`, does not begin with `www.` and
does not end with `/`. -/
theorem c8_idempotent_on_clean (u : Str)
    (hproto : strFind "://".toList (canonicalize_url u) = none)
    (hwww : substr (canonicalize_url u) 0 4 ≠ "www.".toList)
    (hslash : endsWithChar (canonicalize_url u) '/' = false) :
    canonicalize_url (canonicalize_url u) = canonicalize_url u := by
  have h1 : stripProtocol (canonicalize_url u) = canonicalize_url u := by
    unfold stripProtocol
    rw [hproto]
  have h2 : stripWww (canonicalize_url u) = canonicalize_url u := by
    unfold stripWww
    rw [if_neg hwww]
  have h3 : stripTrailingSlash (canonicalize_url u) = canonicalize_url u := by
    unfold stripTrailingSlash
    rw [hslash]
    rfl
  have h4 : stripAnchor (canonicalize_url u) = canonicalize_url u := by
    rw [stripAnchor_eq]
    exact takeWhile_ne_self _ _ (canonical_no_anchor u)
  have h0 := canonical_lower u
  have h5 := canonical_stripQuery u
  generalize canonicalize_url u = c at h0 h1 h2 h3 h4 h5 ⊢
  unfold canonicalize_url
  rw [h0, h1, h2, h3, h4, h5]

/-- C8, amended, at `HTTP://WWW.Books.Toscrape.Com/a/`. -/
theorem c8_idempotent_on_clean_witness :
    strFind "://".toList (canonicalize_url "HTTP://WWW.Books.Toscrape.Com/a/".toList) = none
    ∧ substr (canonicalize_url "HTTP://WWW.Books.Toscrape.Com/a/".toList) 0 4
        ≠ "www.".toList
    ∧ endsWithChar (canonicalize_url "HTTP://WWW.Books.Toscrape.Com/a/".toList) '/' = false
    ∧ canonicalize_url (canonicalize_url "HTTP://WWW.Books.Toscrape.Com/a/".toList)
        = canonicalize_url "HTTP://WWW.Books.Toscrape.Com/a/".toList :=
  ⟨by decide, by decide, by decide,
    c8_idempotent_on_clean "HTTP://WWW.Books.Toscrape.Com/a/".toList
      (by decide) (by decide) (by decide)⟩

/-- C9 on the code: three rows of the matrix come out as listed, but
`http://books.toscrape.com/a/?utm=x` is mapped to `books.toscrape.com/a/`
(the slash before the dropped query stays), not to `books.toscrape.com/a`. -/
theorem c9_canonicalize_matrix :
    canonicalize_url "HTTP://WWW.Books.Toscrape.Com/a/".toList
        = "books.toscrape.com/a".toList
    ∧ canonicalize_url "http://books.toscrape.com/a/?utm=x".toList
        = "books.toscrape.com/a/".toList
    ∧ canonicalize_url "http://books.toscrape.com/s?search=q".toList
        = "books.toscrape.com/s?search=q".toList
    ∧ canonicalize_url "http://books.toscrape.com/a#frag".toList
        = "books.toscrape.com/a".toList := by
  decide

/-! ## C10: the reply to `GET_URL` -/

theorem strFind_zero_iff (pat s : Str) :
    strFind pat s = some 0 ↔ pat.isPrefixOf s = true := by
  cases s with
  | nil =>
    unfold strFind
    cases pat <;> simp [List.isPrefixOf]
  | cons c cs =>
    unfold strFind
    split
    · simp_all
    · rename_i h
      simp only [h, iff_false]
      cases strFind pat cs <;> simp

theorem dispatch_get_url (message : Str)
    (hmsg : startsWith "GET_URL".toList message = true) :
    dispatch message true = Branch.getUrl := by
  have hreg : startsWith "REGISTER".toList message = false := by
    cases hr : startsWith "REGISTER".toList message with
    | false => rfl
    | true =>
      simp only [startsWith, beq_iff_eq, strFind_zero_iff] at hmsg hr
      cases message with
      | nil => simp [List.isPrefixOf] at hmsg
      | cons c cs =>
        have h1 : c = 'G' := by
          have := hmsg
          simp only [String.toList, List.isPrefixOf, Bool.and_eq_true, beq_iff_eq] at this
          exact this.1.symm
        have h2 : c = 'R' := by
          have := hr
          simp only [String.toList, List.isPrefixOf, Bool.and_eq_true, beq_iff_eq] at this
          exact this.1.symm
        rw [h1] at h2
        exact absurd h2 (by decide)
  unfold dispatch
  rw [hreg, hmsg]
  rfl

/-- C10, as stated, fails: with the gate on and the server shutting down, an
empty queue is answered with `SHUTDOWN` (the claim: `WAIT`), and a queue that
holds `http://books.toscrape.com/a` is answered with that URL (the claim:
`SHUTDOWN`). -/
theorem c10_shutdown_order :
    sampleShuttingDownIdle.urlQueueManager.urlQueue = []
    ∧ (handleGetUrl 1 sampleShuttingDownIdle).1 = "SHUTDOWN".toList
    ∧ sampleShuttingDownBusy.urlQueueManager.urlQueue
        = ["http://books.toscrape.com/a".toList]
    ∧ (handleGetUrl 1 sampleShuttingDownBusy).1
        = "URL:http://books.toscrape.com/a".toList := by
  decide

/-- C10, amended: a message that begins with `GET_URL` on a registered
connection takes the `GET_URL` branch, and the reply of that branch is `WAIT`
if the gate is off; otherwise `URL:` followed by the head of the queue if the
queue is not empty; otherwise `SHUTDOWN` if the server is shutting down;
otherwise `WAIT`. With the gate off the coordinator, hence the queue, is left
unchanged. -/
theorem c10_get_url_reply (message : Str) (workerId : Int) (c : Coordinator)
    (hmsg : startsWith "GET_URL".toList message = true) :
    dispatch message true = Branch.getUrl
    ∧ (handleGetUrl workerId c).1 =
        (if c.crawlerEnabled = false then "WAIT".toList
         else match c.urlQueueManager.urlQueue with
          | url :: _ => "URL:".toList ++ url
          | [] => if c.serverShutdown = true then "SHUTDOWN".toList else "WAIT".toList)
    ∧ (c.crawlerEnabled = false → (handleGetUrl workerId c).2 = c) := by
  refine ⟨dispatch_get_url message hmsg, ?_, ?_⟩
  · unfold handleGetUrl getNextUrl
    cases c.crawlerEnabled with
    | false => simp
    | true =>
      cases c.urlQueueManager.urlQueue with
      | nil => cases c.serverShutdown <;> simp
      | cons url rest => simp
  · intro hoff
    unfold handleGetUrl
    simp [hoff]

/-- C10, amended, at a `GET_URL` message to a coordinator whose gate is on and
which is not shutting down: worker 2 is sent the head of the queue. -/
theorem c10_get_url_reply_witness :
    startsWith "GET_URL".toList "GET_URL".toList = true
    ∧ dispatch "GET_URL".toList true = Branch.getUrl
    ∧ (handleGetUrl 2
        { sampleCoordinator with
          urlQueueManager := reassignUrlsFromWorker 1 sampleHeld }).1
        = "URL:http://books.toscrape.com/a".toList :=
  ⟨by decide,
    (c10_get_url_reply "GET_URL".toList 2
      { sampleCoordinator with urlQueueManager := reassignUrlsFromWorker 1 sampleHeld }
      (by decide)).1,
    by
      rw [(c10_get_url_reply "GET_URL".toList 2
        { sampleCoordinator with urlQueueManager := reassignUrlsFromWorker 1 sampleHeld }
        (by decide)).2.1]
      decide⟩

/-! ## `assignedUrls` is a map: its keys are distinct in every reachable state -/

theorem strLt_irrefl (a : Str) : strLt a a = false := by
  induction a with
  | nil => rfl
  | cons c cs ih => simp [strLt, ih]

theorem strLt_trans (a b c : Str) (h1 : strLt a b = true) (h2 : strLt b c = true) :
    strLt a c = true := by
  induction a generalizing b c with
  | nil =>
    cases b with
    | nil => simp [strLt] at h1
    | cons y ys =>
      cases c with
      | nil => simp [strLt] at h2
      | cons z zs => simp [strLt]
  | cons x xs ih =>
    cases b with
    | nil => simp [strLt] at h1
    | cons y ys =>
      cases c with
      | nil => simp [strLt] at h2
      | cons z zs =>
        simp only [strLt] at h1 h2 ⊢
        by_cases hxy : x.toNat < y.toNat
        · by_cases hyz : y.toNat < z.toNat
          · simp [show x.toNat < z.toNat by omega]
          · by_cases hzy : z.toNat < y.toNat
            · simp [hyz, hzy] at h2
            · simp [show x.toNat < z.toNat by omega]
        · by_cases hyx : y.toNat < x.toNat
          · simp [hxy, hyx] at h1
          · simp only [hxy, hyx, if_false] at h1
            by_cases hyz : y.toNat < z.toNat
            · simp [show x.toNat < z.toNat by omega]
            · by_cases hzy : z.toNat < y.toNat
              · simp [hyz, hzy] at h2
              · simp only [hyz, hzy, if_false] at h2
                simp only [show ¬ x.toNat < z.toNat by omega,
                  show ¬ z.toNat < x.toNat by omega, if_false]
                exact ih ys zs h1 h2

theorem strLt_total (a b : Str) (hne : a ≠ b) (h : strLt a b = false) :
    strLt b a = true := by
  induction a generalizing b with
  | nil =>
    cases b with
    | nil => exact absurd rfl hne
    | cons y ys => simp [strLt] at h
  | cons x xs ih =>
    cases b with
    | nil => simp [strLt]
    | cons y ys =>
      simp only [strLt] at h ⊢
      by_cases hxy : x.toNat < y.toNat
      · simp [hxy] at h
      · by_cases hyx : y.toNat < x.toNat
        · simp [hyx]
        · simp only [hxy, hyx, if_false] at h ⊢
          have hx : x = y := Char.ext (UInt32.toNat.inj (by
            have : x.toNat = y.toNat := by omega
            exact this))
          subst hx
          exact ih ys (fun e => hne (by rw [e])) h

theorem keysAscending_mapAssign (k : Str) (v : Int) (l : List (Str × Int))
    (h : KeysAscending l) : KeysAscending (mapAssign k v l) := by
  unfold KeysAscending at h ⊢
  induction l with
  | nil => simp [mapAssign]
  | cons e es ih =>
    rw [List.pairwise_cons] at h
    unfold mapAssign
    by_cases h1 : k = e.1
    · rw [if_pos h1, List.pairwise_cons]
      exact ⟨fun b hb => by simpa [h1] using h.1 b hb, h.2⟩
    · rw [if_neg h1]
      by_cases h2 : strLt k e.1 = true
      · rw [if_pos h2, List.pairwise_cons, List.pairwise_cons]
        refine ⟨?_, h.1, h.2⟩
        intro b hb
        rcases List.mem_cons.1 hb with rfl | hb
        · exact h2
        · exact strLt_trans _ _ _ h2 (h.1 b hb)
      · rw [if_neg h2, List.pairwise_cons]
        refine ⟨?_, ih h.2⟩
        intro b hb
        have hmem : b = (k, v) ∨ b ∈ es := by
          clear ih h h1 h2
          induction es with
          | nil => simpa [mapAssign] using hb
          | cons d ds ihd =>
            unfold mapAssign at hb
            split at hb
            · rcases List.mem_cons.1 hb with hb | hb
              · exact Or.inl hb
              · exact Or.inr (List.mem_cons_of_mem _ hb)
            · split at hb
              · rcases List.mem_cons.1 hb with hb | hb
                · exact Or.inl hb
                · exact Or.inr hb
              · rcases List.mem_cons.1 hb with hb | hb
                · exact Or.inr (hb ▸ List.mem_cons_self _ _)
                · rcases ihd hb with hb | hb
                  · exact Or.inl hb
                  · exact Or.inr (List.mem_cons_of_mem _ hb)
        rcases hmem with rfl | hb
        · exact strLt_total k e.1 h1 (by simpa using h2)
        · exact h.1 b hb

theorem keysAscending_mapErase (k : Str) (l : List (Str × Int))
    (h : KeysAscending l) : KeysAscending (mapErase k l) :=
  List.Pairwise.filter _ h

theorem keysAscending_nodup (l : List (Str × Int)) (h : KeysAscending l) :
    (l.map (·.1)).Nodup := by
  unfold KeysAscending at h
  rw [List.Nodup, List.pairwise_map]
  refine h.imp ?_
  intro a b hab e
  rw [e, strLt_irrefl] at hab
  exact Bool.noConfusion hab

theorem addUrl_assignedUrls (url : Str) (m : UrlQueueManager) :
    (addUrl url m).assignedUrls = m.assignedUrls := by
  unfold addUrl
  simp only
  split
  · rfl
  · split
    · rfl
    · split <;> rfl

theorem foldl_addUrl_assignedUrls (urls : List Str) (m : UrlQueueManager) :
    (urls.foldl (fun m u => addUrl u m) m).assignedUrls = m.assignedUrls := by
  induction urls generalizing m with
  | nil => rfl
  | cons u us ih => simp only [List.foldl_cons, ih, addUrl_assignedUrls]

theorem keysAscending_reassign_foldl (urls : List Str) (m : UrlQueueManager)
    (h : KeysAscending m.assignedUrls) :
    KeysAscending (urls.foldl reassignStep m).assignedUrls := by
  rw [reassign_foldl_assignedUrls]
  exact List.Pairwise.filter _ h

theorem keysAscending_apply (op : QueueOp) (m : UrlQueueManager)
    (h : KeysAscending m.assignedUrls) : KeysAscending (op.apply m).2.assignedUrls := by
  cases op with
  | setSeedUrl url => exact List.Pairwise.nil
  | addSeedUrl url => exact h
  | addUrl url => simpa [QueueOp.apply, addUrl_assignedUrls] using h
  | addUrls urls =>
    simpa [QueueOp.apply, addUrls_eq_foldl, foldl_addUrl_assignedUrls] using h
  | getNextUrl workerId =>
    simp only [QueueOp.apply]
    unfold getNextUrl
    split
    · exact h
    · simp only
      split
      · exact keysAscending_mapAssign _ _ _ h
      · exact h
  | markProcessed url =>
    simp only [QueueOp.apply]
    unfold markProcessed
    simp only
    split
    · exact h
    · exact keysAscending_mapErase _ _ h
  | reassignUrlsFromWorker workerId =>
    exact keysAscending_reassign_foldl _ m h

theorem keysAscending_runOps (ops : List QueueOp) (m : UrlQueueManager)
    (h : KeysAscending m.assignedUrls) : KeysAscending (runOps ops m).assignedUrls := by
  induction ops generalizing m with
  | nil => exact h
  | cons op ops ih => exact ih _ (keysAscending_apply op m h)

/-- The keys of `assignedUrls` are distinct in every state the queue engine can
reach from a manager constructed with empty collections. -/
theorem assigned_keys_nodup_reachable (host start : Str) (ops : List QueueOp) :
    ((runOps ops (UrlQueueManager.new host start)).assignedUrls.map (·.1)).Nodup :=
  keysAscending_nodup _ (keysAscending_runOps ops _ List.Pairwise.nil)

/-! ## The extraction idiom on quote-separated segments -/

theorem isPrefixOf_key_seg (k s rest : Str) (hk : dq ∉ k) (hs : dq ∉ s) :
    (k ++ [dq]).isPrefixOf (s ++ dq :: rest) = true ↔ k = s := by
  induction k generalizing s with
  | nil =>
    cases s with
    | nil => simp [List.isPrefixOf]
    | cons c cs =>
      have hc : dq ≠ c := fun e => hs (e ▸ List.mem_cons_self _ _)
      simp [List.isPrefixOf, hc]
  | cons a k ih =>
    have ha : a ≠ dq := fun e => hk (e ▸ List.mem_cons_self _ _)
    have hk' : dq ∉ k := fun h => hk (List.mem_cons_of_mem _ h)
    cases s with
    | nil => simp [List.isPrefixOf, ha]
    | cons c cs =>
      have hcs : dq ∉ cs := fun h => hs (List.mem_cons_of_mem _ h)
      rw [List.cons_append, List.cons_append, List.isPrefixOf_cons₂, Bool.and_eq_true,
        beq_iff_eq, ih cs hk' hcs, List.cons.injEq]

theorem strFind_key_seg (k s rest : Str) (hk : dq ∉ k) (hs : dq ∉ s) :
    strFind (k ++ [dq]) (s ++ dq :: rest)
      = if k <:+ s then some (s.length - k.length)
        else (strFind (k ++ [dq]) rest).map (· + (s.length + 1)) := by
  induction s with
  | nil =>
    cases k with
    | nil => simp [strFind, List.isPrefixOf]
    | cons a k =>
      have ha : a ≠ dq := fun e => hk (e ▸ List.mem_cons_self _ _)
      simp [strFind, List.isPrefixOf, ha]
  | cons c cs ih =>
    have hcs : dq ∉ cs := fun h => hs (List.mem_cons_of_mem _ h)
    have hpre := isPrefixOf_key_seg k (c :: cs) rest hk hs
    rw [List.cons_append] at hpre
    rw [List.cons_append, strFind]
    by_cases hkeq : k = c :: cs
    · rw [if_pos (hpre.2 hkeq), if_pos (hkeq ▸ List.suffix_refl _)]
      simp [hkeq]
    · rw [if_neg (fun h => hkeq (hpre.1 h)), ih hcs]
      have hsuf : k <:+ c :: cs ↔ k <:+ cs := by
        rw [List.suffix_cons_iff]
        constructor
        · rintro (h | h)
          · exact absurd h hkeq
          · exact h
        · exact Or.inr
      by_cases h : k <:+ cs
      · rw [if_pos h, if_pos (hsuf.2 h)]
        have := h.length_le
        simp only [Option.map_some', List.length_cons, Option.some.injEq]
        omega
      · rw [if_neg h, if_neg (fun h' => h (hsuf.1 h')), Option.map_map]
        rfl

theorem sizeAdd_of_lt (a b : Nat) (h : a + b < sizeMod) : sizeAdd a b = a + b :=
  Nat.mod_eq_of_lt h

theorem sizeSub_of_le (a b : Nat) (hb : b ≤ a) (ha : a < sizeMod) : sizeSub a b = a - b := by
  unfold sizeSub
  rw [Nat.mod_eq_of_lt (lt_of_le_of_lt hb ha)]
  have h : a + sizeMod - b = (a - b) + sizeMod := by omega
  rw [h, Nat.add_mod_right, Nat.mod_eq_of_lt]
  omega

theorem findPos_at (pat pre X : Str) (n : Nat) (hn : n = pre.length) :
    findPos pat (pre ++ X) n = ((strFind pat X).map (· + n)).getD npos := by
  subst hn
  unfold findPos strFindFrom
  simp

theorem substrChecked_at (pre X : Str) (n m : Nat) (hn : n = pre.length) :
    substrChecked (pre ++ X) n m = some (X.take m) := by
  subst hn
  unfold substrChecked substr
  simp

theorem strFind_quote_seg (v rest : Str) (hv : dq ∉ v) :
    strFind [dq] (v ++ dq :: rest) = some v.length := by
  have h := strFind_key_seg [] v rest (List.not_mem_nil _) hv
  simpa using h

theorem extractQuoted_hit (k pre s v rest : Str) (skip : Nat) (hskip : skip = k.length + 1)
    (hk : dq ∉ k) (hs : dq ∉ s) (hv : dq ∉ v) (hsuf : k <:+ s)
    (hlen : (pre ++ (s ++ dq :: (v ++ dq :: rest))).length < sizeMod) :
    extractQuoted (k ++ [dq]) skip (pre ++ (s ++ dq :: (v ++ dq :: rest))) pre.length
      = (some v, pre.length + (s.length + 1 + v.length)) := by
  have hkl := hsuf.length_le
  simp only [List.length_append, List.length_cons] at hlen
  have hfind : findPos (k ++ [dq]) (pre ++ (s ++ dq :: (v ++ dq :: rest))) pre.length
      = s.length - k.length + pre.length := by
    rw [findPos_at _ _ _ _ rfl, strFind_key_seg k s _ hk hs, if_pos hsuf]
    rfl
  have hstart : sizeAdd (s.length - k.length + pre.length) skip = pre.length + s.length + 1 := by
    rw [sizeAdd_of_lt _ _ (by omega)]
    omega
  have hdata : pre ++ (s ++ dq :: (v ++ dq :: rest)) = (pre ++ s ++ [dq]) ++ (v ++ dq :: rest) := by
    simp
  have hstop : findPos [dq] (pre ++ (s ++ dq :: (v ++ dq :: rest))) (pre.length + s.length + 1)
      = v.length + (pre.length + s.length + 1) := by
    rw [hdata, findPos_at _ _ _ _ (by simp; omega), strFind_quote_seg v rest hv]
    rfl
  unfold extractQuoted
  simp only [hfind, hstart, hstop]
  rw [sizeSub_of_le _ _ (by omega) (by omega)]
  rw [hdata, substrChecked_at _ _ _ _ (by simp; omega)]
  have ht : (v ++ dq :: rest).take (v.length + (pre.length + s.length + 1)
      - (pre.length + s.length + 1)) = v := by
    rw [Nat.add_sub_cancel]
    simp
  rw [ht]
  congr 1
  omega

theorem extractQuoted_skip (k pre s tail : Str) (skip : Nat)
    (hk : dq ∉ k) (hs : dq ∉ s) (hsuf : ¬ k <:+ s) :
    extractQuoted (k ++ [dq]) skip (pre ++ (s ++ dq :: tail)) pre.length
      = extractQuoted (k ++ [dq]) skip ((pre ++ s ++ [dq]) ++ tail) (pre ++ s ++ [dq]).length := by
  have hdata : pre ++ (s ++ dq :: tail) = (pre ++ s ++ [dq]) ++ tail := by simp
  have hfind : findPos (k ++ [dq]) (pre ++ (s ++ dq :: tail)) pre.length
      = findPos (k ++ [dq]) ((pre ++ s ++ [dq]) ++ tail) (pre ++ s ++ [dq]).length := by
    rw [findPos_at _ _ _ _ rfl, findPos_at _ _ _ _ rfl, strFind_key_seg k s _ hk hs,
      if_neg hsuf, Option.map_map]
    congr 2
    funext i
    simp only [Function.comp_apply, List.length_append, List.length_cons, List.length_nil]
    omega
  unfold extractQuoted
  rw [hfind, hdata]

theorem extractQuoted_fieldOf (k : Str) (skip : Nat) (hskip : skip = k.length + 1)
    (hk : dq ∉ k) (segs : List Str) (hsegs : ∀ s ∈ segs, dq ∉ s) (pre : Str)
    (hlen : (pre ++ joinQuoted segs).length < sizeMod) (v : Str) (e : Nat) (rest : List Str)
    (hf : fieldOf k segs = some (v, e, rest)) :
    extractQuoted (k ++ [dq]) skip (pre ++ joinQuoted segs) pre.length = (some v, pre.length + e)
    ∧ ∃ pre' : Str, pre'.length = pre.length + e
        ∧ pre ++ joinQuoted segs = pre' ++ joinQuoted ([] :: rest)
        ∧ (∀ s ∈ rest, dq ∉ s) ∧ rest ≠ [] := by
  induction segs generalizing pre e with
  | nil => simp [fieldOf] at hf
  | cons s tail ih =>
    have hs : dq ∉ s := hsegs s (List.mem_cons_self _ _)
    have htail : ∀ x ∈ tail, dq ∉ x := fun x hx => hsegs x (List.mem_cons_of_mem _ hx)
    unfold fieldOf at hf
    by_cases hsuf : k.isSuffixOf s = true
    · rw [if_pos hsuf] at hf
      have hsuf' : k <:+ s := List.isSuffixOf_iff_suffix.1 hsuf
      match tail, hf, htail, hlen with
      | v' :: w :: rest', hf, htail, hlen =>
        simp only [Option.some.injEq, Prod.mk.injEq] at hf
        obtain ⟨rfl, rfl, rfl⟩ := hf
        have hv : dq ∉ v' := htail v' (List.mem_cons_self _ _)
        have hj : joinQuoted (s :: v' :: w :: rest')
            = s ++ dq :: (v' ++ dq :: joinQuoted (w :: rest')) := rfl
        rw [hj] at hlen ⊢
        refine ⟨extractQuoted_hit k pre s v' _ skip hskip hk hs hv hsuf' hlen,
          pre ++ s ++ [dq] ++ v', ?_, ?_, ?_, ?_⟩
        · simp only [List.length_append, List.length_cons, List.length_nil]
          omega
        · have : joinQuoted ([] :: w :: rest') = dq :: joinQuoted (w :: rest') := rfl
          rw [this]
          simp
        · intro x hx
          exact htail x (List.mem_cons_of_mem _ hx)
        · exact List.cons_ne_nil _ _
    · rw [if_neg hsuf] at hf
      have hsuf' : ¬ k <:+ s := fun h => hsuf (List.isSuffixOf_iff_suffix.2 h)
      cases hft : fieldOf k tail with
      | none => simp [hft] at hf
      | some r =>
        obtain ⟨v0, e0, rest0⟩ := r
        simp only [hft, Option.map_some', Option.some.injEq, Prod.mk.injEq] at hf
        obtain ⟨rfl, rfl, rfl⟩ := hf
        match tail, hft, htail, hlen, ih with
        | t :: tail', hft, htail, hlen, ih =>
          have hj : joinQuoted (s :: t :: tail') = s ++ dq :: joinQuoted (t :: tail') := rfl
          rw [hj] at hlen ⊢
          have hd : pre ++ (s ++ dq :: joinQuoted (t :: tail'))
              = (pre ++ s ++ [dq]) ++ joinQuoted (t :: tail') := by simp
          have hlen2 : ((pre ++ s ++ [dq]) ++ joinQuoted (t :: tail')).length < sizeMod := by
            rw [← hd]; exact hlen
          obtain ⟨h1, pre', h2, h3, h4, h5⟩ := ih htail (pre ++ s ++ [dq]) hlen2 e0 hft
          have hl : (pre ++ s ++ [dq]).length = pre.length + (s.length + 1) := by
            simp only [List.length_append, List.length_cons, List.length_nil]
            omega
          refine ⟨?_, pre', ?_, ?_, h4, h5⟩
          · rw [extractQuoted_skip k pre s _ skip hk hs hsuf', h1, hl]
            congr 1
            omega
          · rw [h2, hl]
            omega
          · rw [hd, h3]

theorem processedData_eq (u : Str) (b : Book) :
    substrFrom (processedMessage u b) 10 = joinQuoted (processedSegments u b) := by
  simp [processedMessage, substrFrom, joinQuoted, processedSegments]

theorem extractQuoted_fieldOf_zero (k : Str) (skip : Nat) (hskip : skip = k.length + 1)
    (hk : dq ∉ k) (segs : List Str) (hsegs : ∀ s ∈ segs, dq ∉ s)
    (hlen : (joinQuoted segs).length < sizeMod) (v : Str) (e : Nat) (rest : List Str)
    (hf : fieldOf k segs = some (v, e, rest)) :
    extractQuoted (k ++ [dq]) skip (joinQuoted segs) 0 = (some v, e)
    ∧ ∃ pre' : Str, pre'.length = e
        ∧ joinQuoted segs = pre' ++ joinQuoted ([] :: rest)
        ∧ (∀ s ∈ rest, dq ∉ s) ∧ rest ≠ [] := by
  have h := extractQuoted_fieldOf k skip hskip hk segs hsegs [] (by simpa using hlen) v e rest hf
  simpa using h

theorem processedSegments_clean (u : Str) (b : Book) (hu : dq ∉ u) (ht : dq ∉ b.title)
    (hp : dq ∉ b.price) (hr : dq ∉ b.rating) (hb : dq ∉ b.url) :
    ∀ s ∈ processedSegments u b, dq ∉ s := by
  intro s hs
  simp only [processedSegments, List.mem_cons, List.mem_singleton, List.not_mem_nil,
    or_false] at hs
  rcases hs with rfl | rfl | rfl | rfl | rfl | rfl | rfl | rfl | rfl | rfl | rfl
  all_goals first | assumption | decide

theorem fieldOf_hit (k s v w : Str) (rest : List Str) (h : k.isSuffixOf s = true) :
    fieldOf k (s :: v :: w :: rest) = some (v, s.length + 1 + v.length, w :: rest) := by
  unfold fieldOf
  rw [if_pos h]

theorem fieldOf_skip (k s : Str) (tail : List Str) (h : k.isSuffixOf s = false) :
    fieldOf k (s :: tail)
      = (fieldOf k tail).map (fun r => (r.1, r.2.1 + (s.length + 1), r.2.2)) := by
  conv_lhs => unfold fieldOf
  rw [if_neg (by simp [h])]

theorem sizeMod_gt : 1023 < sizeMod := by decide

theorem receivedMessage_processed (u : Str) (b : Book)
    (h : ∀ s ∈ [u, b.title, b.price, b.rating, b.url], nul ∉ s) :
    receivedMessage (processedMessage u b) = processedMessage u b := by
  apply takeWhile_ne_self
  have hu := h u (by simp)
  have ht := h b.title (by simp)
  have hp := h b.price (by simp)
  have hr := h b.rating (by simp)
  have hb := h b.url (by simp)
  have c1 : nul ∉ "PROCESSED:".toList := by decide
  have c2 : nul ∉ "\x7burl:".toList := by decide
  have c3 : nul ∉ ",book:\x7btitle:".toList := by decide
  have c4 : nul ∉ ",price:".toList := by decide
  have c5 : nul ∉ ",rating:".toList := by decide
  have c6 : nul ∉ ",url:".toList := by decide
  have c7 : nul ∉ "\x7d\x7d".toList := by decide
  have c8 : nul ≠ dq := by decide
  unfold processedMessage
  simp only [List.mem_append, List.mem_singleton, not_or]
  exact ⟨c1, ⟨⟨⟨⟨⟨⟨⟨⟨⟨⟨⟨⟨⟨⟨⟨⟨⟨⟨⟨⟨c2, c8⟩, hu⟩, c8⟩, c3⟩, c8⟩, ht⟩, c8⟩, c4⟩, c8⟩, hp⟩, c8⟩,
    c5⟩, c8⟩, hr⟩, c8⟩, c6⟩, c8⟩, hb⟩, c8⟩, c7⟩⟩

/-! ## C11: the `PROCESSED` branch -/

theorem markProcessed_mem (u : Str) (m : UrlQueueManager) :
    canonicalize_url u ∈ (markProcessed u m).processedUrls := by
  unfold markProcessed
  simp only
  split
  · assumption
  · exact mem_setInsert.2 (Or.inl rfl)

theorem wrapInt_of_range (x : Int) (hlo : -2147483648 ≤ x) (hhi : x ≤ 2147483647) :
    wrapInt x = x := by
  unfold wrapInt
  omega

theorem wrapInt_range (x : Int) : -2147483648 ≤ wrapInt x ∧ wrapInt x ≤ 2147483647 := by
  unfold wrapInt
  omega

theorem wrapInt_max : wrapInt (2147483647 + 1) = -2147483648 := by decide

/-- C12 on the code: with the gate on, the registered worker 1 sends
`PROCESSED:` with nothing after the colon, or `LINKS:` followed by one brace;
both take their branch, and in both the first `substr` is called with a start
beyond the end of the data, so `std::out_of_range` leaves the handler. -/
theorem c12_short_message_throws :
    sampleCoordinator.crawlerEnabled = true
    ∧ dispatch (receivedMessage "PROCESSED:".toList) true = Branch.processed
    ∧ handleProcessed 1 (receivedMessage "PROCESSED:".toList) sampleCoordinator = none
    ∧ dispatch (receivedMessage "LINKS:\x7b".toList) true = Branch.links
    ∧ handleLinks 1 (receivedMessage "LINKS:\x7b".toList) sampleCoordinator = none := by
  decide

/-! ## C13: the `PROCESSED` wire format -/

set_option maxRecDepth 100000 in
/-- C13, as stated, fails: the title `Half price:` holds no double quote, but
in the message it is followed by a quote, so the search for the key of the
price stops there and the price extracted is `,price:` instead of `£10.00`. -/
theorem c13_title_ending_in_key :
    dq ∉ "Half price:".toList
    ∧ nul ∉ "Half price:".toList
    ∧ parseProcessed (substrFrom (receivedMessage
        (processedMessage "http://books.toscrape.com/x".toList
          { title := "Half price:".toList, price := "£10.00".toList,
            rating := "Three".toList, url := "http://books.toscrape.com/x".toList })) 10)
      = some ("http://books.toscrape.com/x".toList,
          { title := "Half price:".toList, price := ",price:".toList,
            rating := "Three".toList, url := "http://books.toscrape.com/x".toList }) := by
  decide

theorem parseProcessed_round_trip (u : Str) (b : Book)
    (hu : dq ∉ u) (ht : dq ∉ b.title) (hp : dq ∉ b.price) (hr : dq ∉ b.rating)
    (hb : dq ∉ b.url)
    (hut : ¬ "title:".toList <:+ u) (hup : ¬ "price:".toList <:+ u)
    (hur : ¬ "rating:".toList <:+ u) (htp : ¬ "price:".toList <:+ b.title)
    (htr : ¬ "rating:".toList <:+ b.title) (hpr : ¬ "rating:".toList <:+ b.price)
    (hlen : (processedMessage u b).length ≤ 1023) :
    parseProcessed (substrFrom (processedMessage u b) 10) = some (u, b) := by
  have hclean := processedSegments_clean u b hu ht hp hr hb
  have hlen' : (joinQuoted (processedSegments u b)).length < sizeMod := by
    rw [← processedData_eq]
    unfold substrFrom
    rw [List.length_drop]
    have := sizeMod_gt
    omega
  have f : ∀ {k s : Str}, ¬ k <:+ s → k.isSuffixOf s = false := by
    intro k s h
    cases hk : k.isSuffixOf s with
    | false => rfl
    | true => exact absurd (List.isSuffixOf_iff_suffix.1 hk) h
  rw [processedData_eq]
  have hfu : ∃ e rest, fieldOf "url:".toList (processedSegments u b) = some (u, e, rest) := by
    unfold processedSegments
    rw [fieldOf_hit]
    · exact ⟨_, _, rfl⟩
    · decide
  have hft : ∃ e rest, fieldOf "title:".toList (processedSegments u b)
      = some (b.title, e, rest) := by
    unfold processedSegments
    rw [fieldOf_skip, fieldOf_skip, fieldOf_hit]
    · exact ⟨_, _, rfl⟩
    · decide
    · exact f hut
    · decide
  have hfp : ∃ e rest, fieldOf "price:".toList (processedSegments u b)
      = some (b.price, e, rest) := by
    unfold processedSegments
    rw [fieldOf_skip, fieldOf_skip, fieldOf_skip, fieldOf_skip, fieldOf_hit]
    · exact ⟨_, _, rfl⟩
    · decide
    · exact f htp
    · decide
    · exact f hup
    · decide
  have hfr : ∃ e, fieldOf "rating:".toList (processedSegments u b)
      = some (b.rating, e, [",url:".toList, b.url, "\x7d\x7d".toList]) := by
    unfold processedSegments
    rw [fieldOf_skip, fieldOf_skip, fieldOf_skip, fieldOf_skip, fieldOf_skip, fieldOf_skip,
      fieldOf_hit]
    · exact ⟨_, rfl⟩
    · decide
    · exact f hpr
    · decide
    · exact f htr
    · decide
    · exact f hur
    · decide
  have hfb : ∃ e rest, fieldOf "url:".toList
      [[], ",url:".toList, b.url, "\x7d\x7d".toList] = some (b.url, e, rest) := by
    rw [fieldOf_skip, fieldOf_hit]
    · exact ⟨_, _, rfl⟩
    · decide
    · decide
  obtain ⟨eu, ru, hfu⟩ := hfu
  obtain ⟨et, rt, hft⟩ := hft
  obtain ⟨ep, rp, hfp⟩ := hfp
  obtain ⟨er, hfr⟩ := hfr
  obtain ⟨eb, rb, hfb⟩ := hfb
  have hxu := (extractQuoted_fieldOf_zero "url:".toList 5 rfl (by decide) _ hclean hlen'
    _ _ _ hfu).1
  have hxt := (extractQuoted_fieldOf_zero "title:".toList 7 rfl (by decide) _ hclean hlen'
    _ _ _ hft).1
  have hxp := (extractQuoted_fieldOf_zero "price:".toList 7 rfl (by decide) _ hclean hlen'
    _ _ _ hfp).1
  obtain ⟨hxr, pre', hpre, hdata, hrclean, _⟩ :=
    extractQuoted_fieldOf_zero "rating:".toList 8 rfl (by decide) _ hclean hlen' _ _ _ hfr
  have hclean2 : ∀ s ∈ ([] : Str) :: [",url:".toList, b.url, "\x7d\x7d".toList], dq ∉ s := by
    intro s hs
    rcases List.mem_cons.1 hs with rfl | hs
    · exact List.not_mem_nil _
    · exact hrclean s hs
  have hxb := (extractQuoted_fieldOf "url:".toList 5 rfl (by decide) _ hclean2 pre'
    (by rw [← hdata]; exact hlen') _ _ _ hfb).1
  rw [← hdata, hpre] at hxb
  unfold parseProcessed
  simp only [hxu, hxt, hxp, hxr, hxb]

/-- C13, amended: for every page URL and every book whose fields hold no double
quote and no NUL byte, where the page URL does not end with `title:`, `price:`
or `rating:`, the title does not end with `price:` or `rating:`, the price does
not end with `rating:`, and the message has at most 1023 bytes (what one `recv`
of the coordinator takes), the field extraction of the coordinator applied to
the received `PROCESSED` message of the worker gives back the page URL and the
book. -/
theorem c13_processed_round_trip (u : Str) (b : Book)
    (hclean : ∀ s ∈ [u, b.title, b.price, b.rating, b.url], dq ∉ s ∧ nul ∉ s)
    (htitle : ¬ "title:".toList <:+ u)
    (hprice : ∀ s ∈ [u, b.title], ¬ "price:".toList <:+ s)
    (hrating : ∀ s ∈ [u, b.title, b.price], ¬ "rating:".toList <:+ s)
    (hlen : (processedMessage u b).length ≤ 1023) :
    parseProcessed (substrFrom (receivedMessage (processedMessage u b)) 10) = some (u, b) := by
  rw [receivedMessage_processed u b (fun s hs => (hclean s hs).2)]
  exact parseProcessed_round_trip u b (hclean u (by simp)).1 (hclean b.title (by simp)).1
    (hclean b.price (by simp)).1 (hclean b.rating (by simp)).1 (hclean b.url (by simp)).1
    htitle (hprice u (by simp)) (hrating u (by simp)) (hprice b.title (by simp))
    (hrating b.title (by simp)) (hrating b.price (by simp)) hlen

set_option maxRecDepth 100000 in
/-- C13, amended, at the `PROCESSED` message of the first end-to-end
scenario. -/
theorem c13_processed_round_trip_witness :
    sampleProcessedMessage.length ≤ 1023
    ∧ parseProcessed (substrFrom (receivedMessage sampleProcessedMessage) 10)
      = some ("http://books.toscrape.com/".toList,
          { title := "A".toList, price := "£10.00".toList, rating := "Three".toList,
            url := "http://books.toscrape.com/a".toList }) :=
  ⟨by decide,
    c13_processed_round_trip "http://books.toscrape.com/".toList
      { title := "A".toList, price := "£10.00".toList, rating := "Three".toList,
        url := "http://books.toscrape.com/a".toList }
      (by decide) (by decide) (by decide) (by decide) (by decide)⟩

/-! ## C14, C15: deduplication of items -/

theorem addBook_of_new (book : Book) (m : UrlQueueManager)
    (h : m.collectedBooks.any (fun b => bookKeyEq b book) = false) :
    addBook book m =
      { m with
        collectedBooks := m.collectedBooks ++ [book]
        collectedItems := m.collectedItems ++ [Item.fromBook book] } := by
  unfold addBook
  rw [h]
  rfl

/-- C14 on the code: two `addBook` calls with the same title and rating and the
prices `£51.77` and `$51.77` (the price strings differ, so the second book is
not a duplicate for `addBook`) leave two entries in `collectedItems`, found at
different URLs, that agree on type, title, price and rating. -/
theorem c14_two_books_one_item_key :
    (addBook sampleBookDollar (addBook sampleBookPound UrlQueueManager.default)).collectedItems
        = [Item.fromBook sampleBookPound, Item.fromBook sampleBookDollar]
    ∧ (Item.fromBook sampleBookPound).url ≠ (Item.fromBook sampleBookDollar).url
    ∧ SameItemKey (Item.fromBook sampleBookPound) (Item.fromBook sampleBookDollar) := by
  refine ⟨?_, by decide, rfl, rfl, rfl, rfl⟩
  rw [addBook_of_new sampleBookPound _ (by decide), addBook_of_new sampleBookDollar _ (by decide)]
  rfl

theorem addItem_keeps_keys_distinct (fmt : Rat → Str) (x : Item) (m : UrlQueueManager)
    (h : m.collectedItems.Pairwise (fun a b => ¬ SameItemKey a b)) :
    (addItem fmt x m).collectedItems.Pairwise (fun a b => ¬ SameItemKey a b) := by
  unfold addItem
  by_cases hany : m.collectedItems.any (fun i => itemKeyEq i x) = true
  · rw [if_pos hany]
    exact h
  · rw [if_neg hany]
    have hnew : ∀ a ∈ m.collectedItems, ¬ SameItemKey a x := by
      intro a ha hk
      apply hany
      rw [List.any_eq_true]
      refine ⟨a, ha, ?_⟩
      simp only [itemKeyEq, Bool.and_eq_true, decide_eq_true_eq]
      exact ⟨⟨⟨hk.1, hk.2.1⟩, hk.2.2.1⟩, hk.2.2.2⟩
    have hp : (m.collectedItems ++ [x]).Pairwise (fun a b => ¬ SameItemKey a b) := by
      rw [List.pairwise_append]
      refine ⟨h, List.pairwise_singleton _ _, ?_⟩
      intro a ha b hb
      rw [List.mem_singleton] at hb
      subst hb
      exact hnew a ha
    split <;> exact hp

theorem runItemOps_addItem_distinct (fmt : Rat → Str) (items : List Item)
    (m : UrlQueueManager)
    (h : m.collectedItems.Pairwise (fun a b => ¬ SameItemKey a b)) :
    (runItemOps fmt (items.map ItemOp.addItem) m).collectedItems.Pairwise
      (fun a b => ¬ SameItemKey a b) := by
  induction items generalizing m with
  | nil => exact h
  | cons x xs ih => exact ih _ (addItem_keeps_keys_distinct fmt x m h)

theorem addBook_keeps_keys_distinct (book : Book) (m : UrlQueueManager)
    (h : m.collectedBooks.Pairwise (fun a b => ¬ SameBookKey a b)) :
    (addBook book m).collectedBooks.Pairwise (fun a b => ¬ SameBookKey a b) := by
  unfold addBook
  by_cases hany : m.collectedBooks.any (fun b => bookKeyEq b book) = true
  · rw [if_pos hany]
    exact h
  · rw [if_neg hany]
    have hnew : ∀ a ∈ m.collectedBooks, ¬ SameBookKey a book := by
      intro a ha hk
      apply hany
      rw [List.any_eq_true]
      refine ⟨a, ha, ?_⟩
      simp only [bookKeyEq, Bool.and_eq_true, decide_eq_true_eq]
      exact ⟨⟨hk.1, hk.2.1⟩, hk.2.2⟩
    show (m.collectedBooks ++ [book]).Pairwise (fun a b => ¬ SameBookKey a b)
    rw [List.pairwise_append]
    refine ⟨h, List.pairwise_singleton _ _, ?_⟩
    intro a ha b hb
    rw [List.mem_singleton] at hb
    subst hb
    exact hnew a ha

theorem runItemOps_addBook_distinct (fmt : Rat → Str) (books : List Book)
    (m : UrlQueueManager)
    (h : m.collectedBooks.Pairwise (fun a b => ¬ SameBookKey a b)) :
    (runItemOps fmt (books.map ItemOp.addBook) m).collectedBooks.Pairwise
      (fun a b => ¬ SameBookKey a b) := by
  induction books generalizing m with
  | nil => exact h
  | cons x xs ih => exact ih _ (addBook_keeps_keys_distinct x m h)

/-- Each call keeps its own collection free of duplicates: after any sequence
of `addItem` calls on a manager constructed with empty collections, no two
entries of `collectedItems` agree on type, title, price and rating; after any
sequence of `addBook` calls, no two entries of `collectedBooks` agree on the
title, price and rating strings. -/
theorem dedup_per_collection (fmt : Rat → Str) (host start : Str)
    (items : List Item) (books : List Book) :
    (runItemOps fmt (items.map ItemOp.addItem)
      (UrlQueueManager.new host start)).collectedItems.Pairwise
      (fun a b => ¬ SameItemKey a b)
    ∧ (runItemOps fmt (books.map ItemOp.addBook)
      (UrlQueueManager.new host start)).collectedBooks.Pairwise
      (fun a b => ¬ SameBookKey a b) :=
  ⟨runItemOps_addItem_distinct fmt items _ List.Pairwise.nil,
    runItemOps_addBook_distinct fmt books _ List.Pairwise.nil⟩

/-- C15: when `collectedItems` holds an item with the same type, title, price
and rating as `x`, `addItem(x)` leaves the manager, and so `collectedItems` and
`collectedBooks`, unchanged. -/
theorem c15_addItem_duplicate_noop (fmt : Rat → Str) (x : Item) (m : UrlQueueManager)
    (h : ∃ i ∈ m.collectedItems, SameItemKey i x) :
    addItem fmt x m = m
    ∧ (addItem fmt x m).collectedItems = m.collectedItems
    ∧ (addItem fmt x m).collectedBooks = m.collectedBooks := by
  have hany : m.collectedItems.any (fun i => itemKeyEq i x) = true := by
    obtain ⟨i, hi, hk⟩ := h
    rw [List.any_eq_true]
    refine ⟨i, hi, ?_⟩
    simp only [itemKeyEq, Bool.and_eq_true, decide_eq_true_eq]
    exact ⟨⟨⟨hk.1, hk.2.1⟩, hk.2.2.1⟩, hk.2.2.2⟩
  have he : addItem fmt x m = m := by
    unfold addItem
    rw [if_pos hany]
  rw [he]
  exact ⟨rfl, rfl, rfl⟩

/-- C15 at the item of `sampleBookDollar` offered after `sampleBookPound` was
added: same key, another URL. -/
theorem c15_addItem_duplicate_noop_witness :
    (∃ i ∈ (addBook sampleBookPound UrlQueueManager.default).collectedItems,
        SameItemKey i (Item.fromBook sampleBookDollar))
    ∧ (Item.fromBook sampleBookDollar).url ≠ (Item.fromBook sampleBookPound).url
    ∧ addItem (fun _ => []) (Item.fromBook sampleBookDollar)
        (addBook sampleBookPound UrlQueueManager.default)
      = addBook sampleBookPound UrlQueueManager.default :=
  have hmem : Item.fromBook sampleBookPound
      ∈ (addBook sampleBookPound UrlQueueManager.default).collectedItems := by
    rw [addBook_of_new sampleBookPound _ (by decide)]
    exact List.mem_append_right _ (List.mem_singleton_self _)
  ⟨⟨Item.fromBook sampleBookPound, hmem, rfl, rfl, rfl, rfl⟩, by decide,
    (c15_addItem_duplicate_noop (fun _ => []) (Item.fromBook sampleBookDollar)
      (addBook sampleBookPound UrlQueueManager.default)
      ⟨Item.fromBook sampleBookPound, hmem, rfl, rfl, rfl, rfl⟩).1⟩

/-! ## C16: `addSeedUrl` called twice -/

theorem setErase_setInsert_of_not_mem (c : Str) (l : List Str) (h : c ∉ l) :
    setErase c (setInsert c l) = l := by
  induction l with
  | nil => simp [setInsert, setErase]
  | cons y ys ih =>
    have hy : c ≠ y := fun e => h (e ▸ List.mem_cons_self _ _)
    have hys : c ∉ ys := fun hm => h (List.mem_cons_of_mem _ hm)
    unfold setInsert
    rw [if_neg hy]
    have hfy : setErase c (y :: ys) = y :: ys := by
      unfold setErase
      rw [List.filter_eq_self]
      intro a ha
      simpa using fun e : a = c => h (e ▸ ha)
    split
    · show setErase c (c :: y :: ys) = y :: ys
      have : setErase c (c :: y :: ys) = setErase c (y :: ys) := by
        simp [setErase]
      rw [this, hfy]
    · have : setErase c (y :: setInsert c ys) = y :: setErase c (setInsert c ys) := by
        simp [setErase, Ne.symm hy]
      rw [this, ih hys]

theorem not_mem_setErase_self (c : Str) (l : List Str) : c ∉ setErase c l := by
  simp [mem_setErase]

theorem addSeedUrl_urlQueue (s : Str) (m : UrlQueueManager) :
    (addSeedUrl s m).urlQueue = m.urlQueue ++ [s] := rfl

theorem addSeedUrl_queuedUrls (s : Str) (m : UrlQueueManager) :
    (addSeedUrl s m).queuedUrls
      = setInsert (canonicalize_url s) (setErase (canonicalize_url s) m.queuedUrls) := by
  simp only [addSeedUrl]
  split
  · rfl
  · rename_i h
    have : setErase (canonicalize_url s) m.queuedUrls = m.queuedUrls := by
      unfold setErase
      rw [List.filter_eq_self]
      intro a ha
      simpa using fun e : a = canonicalize_url s => h (e ▸ ha)
    rw [this]

theorem addSeedUrl_processedUrls (s : Str) (m : UrlQueueManager) :
    (addSeedUrl s m).processedUrls = setErase (canonicalize_url s) m.processedUrls := by
  simp only [addSeedUrl]
  split
  · rfl
  · rename_i h
    unfold setErase
    rw [List.filter_eq_self.2]
    intro a ha
    simpa using fun e : a = canonicalize_url s => h (e ▸ ha)

/-- What holds of `addSeedUrl` called twice in a row: the two sets are as after
one call, the seed's canonical form is queued and not processed, and the queue
has received the seed twice. -/
theorem addSeedUrl_twice (s : Str) (m : UrlQueueManager) :
    (addSeedUrl s (addSeedUrl s m)).queuedUrls = (addSeedUrl s m).queuedUrls
    ∧ (addSeedUrl s (addSeedUrl s m)).processedUrls = (addSeedUrl s m).processedUrls
    ∧ canonicalize_url s ∈ (addSeedUrl s m).queuedUrls
    ∧ canonicalize_url s ∉ (addSeedUrl s m).processedUrls
    ∧ (addSeedUrl s (addSeedUrl s m)).urlQueue = m.urlQueue ++ [s, s] := by
  refine ⟨?_, ?_, ?_, ?_, ?_⟩
  · rw [addSeedUrl_queuedUrls s (addSeedUrl s m), addSeedUrl_queuedUrls s m,
      setErase_setInsert_of_not_mem _ _ (not_mem_setErase_self _ _)]
  · rw [addSeedUrl_processedUrls s (addSeedUrl s m), addSeedUrl_processedUrls s m]
    simp [setErase, List.filter_filter]
  · rw [addSeedUrl_queuedUrls]
    exact mem_setInsert.2 (Or.inl rfl)
  · rw [addSeedUrl_processedUrls]
    exact not_mem_setErase_self _ _
  · rw [addSeedUrl_urlQueue, addSeedUrl_urlQueue]
    simp

/-- C16 on the code: `addSeedUrl` of `https://books.toscrape.com/` on the
manager built with the default arguments puts the seed into `urlQueue`; a second
call puts it there again, so the queue holds the seed twice, while `queuedUrls`
holds its canonical form once. -/
theorem c16_seed_enqueued_twice :
    (addSeedUrl "https://books.toscrape.com/".toList UrlQueueManager.default).urlQueue
        = ["https://books.toscrape.com/".toList]
    ∧ (addSeedUrl "https://books.toscrape.com/".toList
        (addSeedUrl "https://books.toscrape.com/".toList UrlQueueManager.default)).urlQueue
        = ["https://books.toscrape.com/".toList, "https://books.toscrape.com/".toList]
    ∧ (addSeedUrl "https://books.toscrape.com/".toList
        (addSeedUrl "https://books.toscrape.com/".toList UrlQueueManager.default)).queuedUrls
        = ["books.toscrape.com".toList] := by
  decide

/-! ## C17: two adds of one link -/

theorem addUrl_idem (u : Str) (m : UrlQueueManager) : addUrl u (addUrl u m) = addUrl u m := by
  by_cases hp : canonicalize_url u ∈ m.processedUrls
  · have h1 : addUrl u m = m := by unfold addUrl; simp [hp]
    rw [h1, h1]
  · by_cases hq : canonicalize_url u ∈ m.queuedUrls
    · have h1 : addUrl u m = m := by unfold addUrl; simp [hp, hq]
      rw [h1, h1]
    · by_cases hh : strFind m.hostname u = none
      · have h1 : addUrl u m = m := by unfold addUrl; simp [hp, hq, hh]
        rw [h1, h1]
      · have h1 : addUrl u m = { m with
            urlQueue := m.urlQueue ++ [u]
            queuedUrls := setInsert (canonicalize_url u) m.queuedUrls } := by
          unfold addUrl; simp [hp, hq, hh]
        rw [h1]
        unfold addUrl
        simp [hp, mem_setInsert]

/-- C17: for a URL `u` that contains the crawl host name and whose canonical
form is neither queued nor processed, the first `addUrl(u)` appends `u` to
`urlQueue` and the second changes nothing, so both together grow the queue by
exactly the one entry `u`; and for every manager and URL, `addUrl` twice leaves
the same manager as `addUrl` once. -/
theorem c17_racing_adds (m : UrlQueueManager) (u : Str)
    (hhost : strFind m.hostname u ≠ none)
    (hq : canonicalize_url u ∉ m.queuedUrls)
    (hp : canonicalize_url u ∉ m.processedUrls) :
    (addUrl u m).urlQueue = m.urlQueue ++ [u]
    ∧ addUrl u (addUrl u m) = addUrl u m
    ∧ (addUrl u (addUrl u m)).urlQueue = m.urlQueue ++ [u]
    ∧ (addUrl u (addUrl u m)).urlQueue.length = m.urlQueue.length + 1
    ∧ ∀ (m' : UrlQueueManager) (u' : Str), addUrl u' (addUrl u' m') = addUrl u' m' := by
  have h1 : (addUrl u m).urlQueue = m.urlQueue ++ [u] := by
    unfold addUrl
    simp [hp, hq, hhost]
  refine ⟨h1, addUrl_idem u m, ?_, ?_, fun m' u' => addUrl_idem u' m'⟩
  · rw [addUrl_idem, h1]
  · rw [addUrl_idem, h1]
    simp

/-- C17 at `http://books.toscrape.com/x` offered twice to the manager built
with the default arguments. -/
theorem c17_racing_adds_witness :
    strFind UrlQueueManager.default.hostname "http://books.toscrape.com/x".toList ≠ none
    ∧ canonicalize_url "http://books.toscrape.com/x".toList
        ∉ UrlQueueManager.default.queuedUrls
    ∧ canonicalize_url "http://books.toscrape.com/x".toList
        ∉ UrlQueueManager.default.processedUrls
    ∧ (addUrl "http://books.toscrape.com/x".toList
        (addUrl "http://books.toscrape.com/x".toList UrlQueueManager.default)).urlQueue
        = ["http://books.toscrape.com/x".toList] :=
  ⟨by decide, by decide, by decide,
    (c17_racing_adds UrlQueueManager.default "http://books.toscrape.com/x".toList
      (by decide) (by decide) (by decide)).2.2.1⟩

/-! ## C18: `getNextUrl` -/

theorem mapFind_mapAssign (k : Str) (v : Int) (l : List (Str × Int)) :
    mapFind k (mapAssign k v l) = some v := by
  induction l with
  | nil => simp [mapAssign, mapFind]
  | cons e es ih =>
    unfold mapAssign
    by_cases h1 : k = e.1
    · rw [if_pos h1]
      simp [mapFind]
    · rw [if_neg h1]
      split
      · simp [mapFind]
      · unfold mapFind at ih ⊢
        rw [List.find?_cons_of_neg _ (by simpa using Ne.symm h1)]
        exact ih

/-- C18: on a queue with head `head` and for a worker id other than -1,
`getNextUrl` succeeds and returns `head` as it was queued, leaves the rest of
the queue, erases the canonical form of `head` from `queuedUrls` (and nothing
else), stores `head` in `assignedUrls` as held by the worker and leaves
`processedUrls` alone; on an empty queue it returns false and the manager is
unchanged. -/
theorem c18_getNextUrl_contract (m : UrlQueueManager) (w : Int) (head : Str)
    (rest : List Str) (hq : m.urlQueue = head :: rest) (hw : w ≠ -1) :
    (getNextUrl w m).1 = some head
    ∧ (getNextUrl w m).2.urlQueue = rest
    ∧ (getNextUrl w m).2.queuedUrls = setErase (canonicalize_url head) m.queuedUrls
    ∧ canonicalize_url head ∉ (getNextUrl w m).2.queuedUrls
    ∧ (∀ c, c ≠ canonicalize_url head →
        (c ∈ (getNextUrl w m).2.queuedUrls ↔ c ∈ m.queuedUrls))
    ∧ (getNextUrl w m).2.assignedUrls = mapAssign head w m.assignedUrls
    ∧ mapFind head (getNextUrl w m).2.assignedUrls = some w
    ∧ (getNextUrl w m).2.processedUrls = m.processedUrls
    ∧ ∀ m' : UrlQueueManager, m'.urlQueue = [] → getNextUrl w m' = (none, m') := by
  have hg : getNextUrl w m = (some head,
      { m with
        urlQueue := rest
        queuedUrls := setErase (canonicalize_url head) m.queuedUrls
        assignedUrls := mapAssign head w m.assignedUrls }) := by
    unfold getNextUrl
    rw [hq]
    simp [hw]
  rw [hg]
  refine ⟨rfl, rfl, rfl, not_mem_setErase_self _ _, ?_, rfl, mapFind_mapAssign _ _ _, rfl, ?_⟩
  · intro c hc
    simp [mem_setErase, hc]
  · intro m' hm'
    unfold getNextUrl
    rw [hm']

/-- C18 at a queue that holds one URL written with capitals, handed to
worker 7. -/
theorem c18_getNextUrl_contract_witness :
    (addUrl "HTTP://Books.Toscrape.com/books.toscrape.com/".toList
        UrlQueueManager.default).urlQueue
      = ["HTTP://Books.Toscrape.com/books.toscrape.com/".toList]
    ∧ (getNextUrl 7 (addUrl "HTTP://Books.Toscrape.com/books.toscrape.com/".toList
        UrlQueueManager.default)).1
      = some "HTTP://Books.Toscrape.com/books.toscrape.com/".toList
    ∧ (getNextUrl 7 (addUrl "HTTP://Books.Toscrape.com/books.toscrape.com/".toList
        UrlQueueManager.default)).2.urlQueue = [] :=
  ⟨by decide,
    (c18_getNextUrl_contract _ 7 "HTTP://Books.Toscrape.com/books.toscrape.com/".toList []
      (by decide) (by decide)).1,
    (c18_getNextUrl_contract
      (addUrl "HTTP://Books.Toscrape.com/books.toscrape.com/".toList UrlQueueManager.default)
      7 "HTTP://Books.Toscrape.com/books.toscrape.com/".toList []
      (by decide) (by decide)).2.1⟩

/-! ## C19: `markProcessed` called twice -/

/-- C19: the second of two `markProcessed(u)` calls in a row leaves the manager
unchanged, in particular `processedUrls` and its size. -/
theorem c19_double_mark (m : UrlQueueManager) (u : Str) :
    markProcessed u (markProcessed u m) = markProcessed u m
    ∧ (markProcessed u (markProcessed u m)).processedUrls = (markProcessed u m).processedUrls
    ∧ (markProcessed u (markProcessed u m)).processedUrls.length
        = (markProcessed u m).processedUrls.length := by
  have hin : canonicalize_url u ∈ (markProcessed u m).processedUrls := by
    unfold markProcessed
    simp only
    split
    · assumption
    · exact mem_setInsert.2 (Or.inl rfl)
  have hnoop : ∀ m' : UrlQueueManager, canonicalize_url u ∈ m'.processedUrls →
      markProcessed u m' = m' := by
    intro m' hm'
    unfold markProcessed
    simp only [hm', if_true]
  have h : markProcessed u (markProcessed u m) = markProcessed u m := hnoop _ hin
  rw [h]
  exact ⟨rfl, rfl, rfl⟩

/-! ## C20: worker ids -/

theorem apply_nextWorkerId (op : RegistryOp) (r : WorkerRegistry) :
    (op.apply r).2.nextWorkerId
      = if op.isRegister then wrapInt (r.nextWorkerId + 1) else r.nextWorkerId := by
  cases op <;> rfl

theorem apply_fst (op : RegistryOp) (r : WorkerRegistry) :
    (op.apply r).1 = if op.isRegister then some r.nextWorkerId else none := by
  cases op <;> rfl

theorem wrapInt_succ (x : Int) (i : Nat) :
    wrapInt (wrapInt (x + 1) + (i : Int)) = wrapInt (x + ((i + 1 : Nat) : Int)) := by
  unfold wrapInt
  push_cast
  omega

theorem wrapInt_idem (x : Int) : wrapInt (wrapInt x) = wrapInt x := by
  unfold wrapInt
  omega

/-- The ids of a call sequence: the `i`-th registration returns the `int`
reached from `nextWorkerId` by `i` increments. -/
theorem idsReturned_eq (ops : List RegistryOp) (r : WorkerRegistry)
    (hr : wrapInt r.nextWorkerId = r.nextWorkerId) :
    idsReturned ops r
      = (List.range (ops.countP (·.isRegister))).map
          (fun (i : Nat) => wrapInt (r.nextWorkerId + (i : Int))) := by
  induction ops generalizing r with
  | nil => simp [idsReturned]
  | cons op ops ih =>
    unfold idsReturned
    have hnext : wrapInt (op.apply r).2.nextWorkerId = (op.apply r).2.nextWorkerId := by
      rw [apply_nextWorkerId]
      split
      · exact wrapInt_idem _
      · exact hr
    rw [apply_fst, ih _ hnext, apply_nextWorkerId]
    by_cases h : op.isRegister = true
    · simp only [h, if_true, List.countP_cons_of_pos]
      rw [List.range_succ_eq_map, List.map_cons, List.map_map]
      simp only [Nat.cast_zero, add_zero, hr, List.cons.injEq, true_and]
      apply List.map_congr_left
      intro i _
      simp only [Function.comp_apply, Nat.succ_eq_add_one]
      exact wrapInt_succ _ i
    · simp only [h, Bool.false_eq_true, if_false]
      rw [List.countP_cons_of_neg _ _ (by simpa using h)]

theorem idsReturned_registrations (address : Str) (port : Int) (n : Nat) :
    idsReturned (List.replicate n (RegistryOp.registerWorker address port)) WorkerRegistry.new
      = (List.range n).map (fun (i : Nat) => wrapInt (1 + (i : Int))) := by
  rw [idsReturned_eq _ _ (by decide), List.countP_replicate]
  rfl

theorem getElem?_map_range (f : Nat → Int) (n i : Nat) (h : i < n) :
    ((List.range n).map f)[i]? = some (f i) := by
  rw [List.getElem?_map, List.getElem?_range h]
  rfl

/-- C20, as stated, fails: of 2147483648 registrations on a fresh registry, the
one before the last returns 2147483647, which is `INT_MAX`, and the last
returns -2147483648 (the claim: 2147483648), so the ids are not increasing. -/
theorem c20_id_counter_overflows :
    (idsReturned
        (List.replicate 2147483648 (RegistryOp.registerWorker "127.0.0.1".toList 50000))
        WorkerRegistry.new)[2147483646]? = some 2147483647
    ∧ (idsReturned
        (List.replicate 2147483648 (RegistryOp.registerWorker "127.0.0.1".toList 50000))
        WorkerRegistry.new)[2147483647]? = some (-2147483648) := by
  rw [idsReturned_registrations]
  refine ⟨?_, ?_⟩
  · rw [getElem?_map_range _ _ _ (by decide)]
    decide
  · rw [getElem?_map_range _ _ _ (by decide)]
    decide

/-- C20, amended: for every sequence of registry calls on a fresh registry with
at most 2147483647 `registerWorker` calls, the ids returned by
`registerWorker` are 1, 2, 3, ... in call order, whatever the other calls do;
they are strictly increasing and pairwise distinct. -/
theorem c20_worker_ids_fresh (ops : List RegistryOp)
    (hcount : ops.countP (·.isRegister) ≤ 2147483647) :
    idsReturned ops WorkerRegistry.new
        = (List.range (ops.countP (·.isRegister))).map (fun (i : Nat) => (i : Int) + 1)
    ∧ (idsReturned ops WorkerRegistry.new).Pairwise (· < ·)
    ∧ (idsReturned ops WorkerRegistry.new).Nodup := by
  have h : idsReturned ops WorkerRegistry.new
      = (List.range (ops.countP (·.isRegister))).map (fun (i : Nat) => (i : Int) + 1) := by
    rw [idsReturned_eq _ _ (by decide)]
    apply List.map_congr_left
    intro i hi
    rw [List.mem_range] at hi
    have h1 : WorkerRegistry.new.nextWorkerId = 1 := rfl
    rw [h1, wrapInt_of_range _ (by omega) (by omega)]
    omega
  have hp : (idsReturned ops WorkerRegistry.new).Pairwise (· < ·) := by
    rw [h, List.pairwise_map]
    refine (List.pairwise_lt_range _).imp ?_
    intro a b hab
    omega
  exact ⟨h, hp, hp.imp (fun h => ne_of_lt h)⟩

/-- C20, amended, at a sequence in which worker 1 registers, reports progress
and disconnects before two more workers register: the ids are 1, 2, 3. -/
theorem c20_worker_ids_fresh_witness :
    [RegistryOp.registerWorker "127.0.0.1".toList 50000,
      RegistryOp.updateProgress 1 2147483647,
      RegistryOp.disconnectWorker 1,
      RegistryOp.registerWorker "127.0.0.1".toList 50001,
      RegistryOp.registerWorker "127.0.0.1".toList 50002].countP (·.isRegister)
        ≤ 2147483647
    ∧ idsReturned
        [RegistryOp.registerWorker "127.0.0.1".toList 50000,
          RegistryOp.updateProgress 1 2147483647,
          RegistryOp.disconnectWorker 1,
          RegistryOp.registerWorker "127.0.0.1".toList 50001,
          RegistryOp.registerWorker "127.0.0.1".toList 50002] WorkerRegistry.new
        = [1, 2, 3]
    ∧ (idsReturned
        [RegistryOp.registerWorker "127.0.0.1".toList 50000,
          RegistryOp.updateProgress 1 2147483647,
          RegistryOp.disconnectWorker 1,
          RegistryOp.registerWorker "127.0.0.1".toList 50001,
          RegistryOp.registerWorker "127.0.0.1".toList 50002] WorkerRegistry.new).Nodup :=
  ⟨by decide, by decide,
    (c20_worker_ids_fresh
      [RegistryOp.registerWorker "127.0.0.1".toList 50000,
        RegistryOp.updateProgress 1 2147483647,
        RegistryOp.disconnectWorker 1,
        RegistryOp.registerWorker "127.0.0.1".toList 50001,
        RegistryOp.registerWorker "127.0.0.1".toList 50002] (by decide)).2.2⟩

/-! ## C21: messages before `REGISTER` -/

theorem dispatch_unregistered (message : Str)
    (hmsg : startsWith "REGISTER".toList message = false) :
    dispatch message false = Branch.unknown := by
  unfold dispatch
  rw [hmsg]
  simp

/-- C21, as stated, fails: while the server is shutting down, a `GET_URL` on a
connection that has not registered is followed by a `SHUTDOWN` frame (the
claim: no response). -/
theorem c21_shutdown_notice_before_register :
    Session.new.registered = false
    ∧ startsWith "REGISTER".toList "GET_URL".toList = false
    ∧ handleMessage "127.0.0.1".toList 50001 "GET_URL".toList Session.new
        sampleShuttingDownIdle
      = some (["SHUTDOWN".toList], Session.new, sampleShuttingDownIdle) := by
  decide

/-- C21, amended: on a connection that has not registered, a message that does
not begin with `REGISTER` takes the last branch of the dispatch chain; no
exception is raised, the only frame sent is the shutdown notice (one
`SHUTDOWN` when the server is shutting down, nothing otherwise), and the
locals of the handler and the whole coordinator, that is the worker registry,
the frontier and the flags, are unchanged. -/
theorem c21_unregistered_dropped (address : Str) (port : Int) (message : Str)
    (sess : Session) (c : Coordinator)
    (hreg : sess.registered = false)
    (hmsg : startsWith "REGISTER".toList message = false) :
    dispatch message sess.registered = Branch.unknown
    ∧ handleMessage address port message sess c
        = some (if c.serverShutdown = true then ["SHUTDOWN".toList] else [], sess, c) := by
  have hd : dispatch message sess.registered = Branch.unknown := by
    rw [hreg]
    exact dispatch_unregistered message hmsg
  refine ⟨hd, ?_⟩
  unfold handleMessage
  rw [hd]
  simp only [shutdownNotice]

/-- C21, amended, at a `PROGRESS` message on a fresh connection to a
coordinator that is not shutting down: nothing is sent and nothing changes. -/
theorem c21_unregistered_dropped_witness :
    Session.new.registered = false
    ∧ startsWith "REGISTER".toList "PROGRESS:5".toList = false
    ∧ dispatch "PROGRESS:5".toList Session.new.registered = Branch.unknown
    ∧ handleMessage "127.0.0.1".toList 50001 "PROGRESS:5".toList Session.new
        sampleCoordinator
      = some ([], Session.new, sampleCoordinator) :=
  ⟨rfl, by decide,
    (c21_unregistered_dropped "127.0.0.1".toList 50001 "PROGRESS:5".toList Session.new
      sampleCoordinator rfl (by decide)).1,
    (c21_unregistered_dropped "127.0.0.1".toList 50001 "PROGRESS:5".toList Session.new
      sampleCoordinator rfl (by decide)).2⟩

/-! ## C22: the outer loop of the worker -/

theorem crawlPass_break (p : Pass) (w : Worker) (h : (crawlPass p w).1 = true) :
    (crawlPass p w).2.shouldStop = true := by
  unfold crawlPass at h ⊢
  simp only at h ⊢
  split
  · rename_i h1; rw [if_pos h1] at h; exact absurd h (by simp)
  · rename_i h1
    rw [if_neg h1] at h
    split
    · rename_i h2; rw [if_pos h2] at h; exact absurd h (by simp)
    · rename_i h2
      rw [if_neg h2] at h
      split
      · rfl
      · rename_i book html found hc
        rw [hc] at h
        simp only at h
        split
        · rename_i h3; exact h3
        · rename_i h3; rw [if_neg h3] at h; exact absurd h (by simp)

theorem crawlLoop_stop (passes : List Pass) (w w' : Worker)
    (h : crawlLoop passes w = some w') : w'.shouldStop = true := by
  induction passes generalizing w with
  | nil =>
    unfold crawlLoop at h
    split at h
    · rename_i hs; cases h; exact hs
    · cases h
  | cons p ps ih =>
    unfold crawlLoop at h
    split at h
    · rename_i hs; cases h; exact hs
    · simp only at h
      split at h
      · rename_i hb; cases h; exact crawlPass_break p w hb
      · exact ih _ h

/-- C22 fails: a round of the outer loop of `main` never ends with the wait and
reconnect. The inner loop ends only with the stop flag set, and the test after
it reads the same flag, so the process exits: after five passes that fail at
the `send` of `GET_URL` (four leave the loop running), and after a pass whose
crawl runs into the 60-second timer, with no `SHUTDOWN` received. -/
theorem c22_local_stop_exits :
    (∀ (hostname : Str) (connected : Bool) (passes : List Pass) (w : Worker),
      mainRound hostname connected passes w ≠ some Outcome.reconnect)
    ∧ mainRound "books.toscrape.com".toList true (List.replicate 4 sendErrorPass) Worker.new
        = none
    ∧ mainRound "books.toscrape.com".toList true (List.replicate 5 sendErrorPass) Worker.new
        = some Outcome.exitProcess
    ∧ mainRound "books.toscrape.com".toList true [crawlTimeoutPass] Worker.new
        = some Outcome.exitProcess := by
  refine ⟨fun hostname connected passes w => ?_, by decide, by decide, by decide⟩
  unfold mainRound
  simp only
  cases connected with
  | false => simp
  | true =>
    simp only [Bool.not_true, Bool.false_eq_true, if_false]
    cases hl : crawlLoop passes
        { shouldStop := false, lastReceivedUrl := w.lastReceivedUrl,
          processedUrls := w.processedUrls, startUrl := getBaseUrl hostname,
          waitCount := w.waitCount, errorCount := w.errorCount } with
    | none => simp
    | some w' =>
      have hs := crawlLoop_stop _ _ _ hl
      simp [afterCrawlLoop, hs]

/-! ## C23: link batching -/

theorem mapFind_mapErase_self (k : Str) (l : List (Str × Int)) :
    mapFind k (mapErase k l) = none := by
  induction l with
  | nil => rfl
  | cons e es ih =>
    unfold mapErase at ih ⊢
    by_cases h : e.1 = k
    · simpa [List.filter, h] using ih
    · unfold mapFind at ih ⊢
      simp only [List.filter, ne_eq, h, not_false_eq_true, decide_True]
      rw [List.find?_cons_of_neg _ (by simpa using h)]
      exact ih

theorem mapFind_mapErase_ne (k u : Str) (l : List (Str × Int)) (h : k ≠ u) :
    mapFind k (mapErase u l) = mapFind k l := by
  induction l with
  | nil => rfl
  | cons e es ih =>
    unfold mapErase at ih ⊢
    unfold mapFind at ih ⊢
    by_cases he : e.1 = u
    · have hk : ¬ e.1 = k := fun hek => h (hek.symm.trans he)
      simp only [List.filter, ne_eq, he, not_true_eq_false, decide_False]
      rw [List.find?_cons_of_neg _ (by simpa using hk)]
      exact ih
    · simp only [List.filter, ne_eq, he, not_false_eq_true, decide_True]
      by_cases hk : e.1 = k
      · rw [List.find?_cons_of_pos _ (by simpa using hk),
          List.find?_cons_of_pos _ (by simpa using hk)]
      · rw [List.find?_cons_of_neg _ (by simpa using hk),
          List.find?_cons_of_neg _ (by simpa using hk)]
        exact ih

/-- C24, as stated, fails: worker 1 has been handed `http://books.toscrape.com/a`;
`http://books.toscrape.com/a/` has the same canonical form, which is not yet
processed; after `markProcessed("http://books.toscrape.com/a/")` the canonical
form is processed, and `assignedUrls` still holds the key
`http://books.toscrape.com/a`, whose canonical form it is. -/
theorem c24_slash_variant_stays_assigned :
    (getNextUrl 1 (addUrl "http://books.toscrape.com/a".toList UrlQueueManager.default)).1
      = some "http://books.toscrape.com/a".toList
    ∧ (getNextUrl 1 (addUrl "http://books.toscrape.com/a".toList UrlQueueManager.default)).2
      = sampleHeld
    ∧ canonicalize_url "http://books.toscrape.com/a/".toList
      = canonicalize_url "http://books.toscrape.com/a".toList
    ∧ canonicalize_url "http://books.toscrape.com/a/".toList ∉ sampleHeld.processedUrls
    ∧ canonicalize_url "http://books.toscrape.com/a/".toList
      ∈ (markProcessed "http://books.toscrape.com/a/".toList sampleHeld).processedUrls
    ∧ (markProcessed "http://books.toscrape.com/a/".toList sampleHeld).assignedUrls
      = [("http://books.toscrape.com/a".toList, 1)]
    ∧ canonicalize_url "http://books.toscrape.com/a/".toList
      ∈ assignedCanonical (markProcessed "http://books.toscrape.com/a/".toList sampleHeld) := by
  decide

/-- C24, amended: for every manager and every URL `u` whose canonical form is
not yet processed, after `markProcessed(u)` the canonical form is in
`processedUrls`, `assignedUrls` has no entry under the key `u`, and every entry
under another key, also one with the same canonical form, is as before. -/
theorem c24_markProcessed_releases_key (m : UrlQueueManager) (u : Str)
    (hnew : canonicalize_url u ∉ m.processedUrls) :
    canonicalize_url u ∈ (markProcessed u m).processedUrls
    ∧ mapFind u (markProcessed u m).assignedUrls = none
    ∧ (∀ k, k ≠ u → mapFind k (markProcessed u m).assignedUrls = mapFind k m.assignedUrls) := by
  have ha : (markProcessed u m).assignedUrls = mapErase u m.assignedUrls := by
    unfold markProcessed
    simp only
    rw [if_neg hnew]
  refine ⟨markProcessed_mem u m, ?_, ?_⟩
  · rw [ha]; exact mapFind_mapErase_self u _
  · intro k hk
    rw [ha]; exact mapFind_mapErase_ne k u _ hk

/-- C24, amended, at the manager in which worker 1 holds
`http://books.toscrape.com/a`: reporting that very string releases the
assignment. -/
theorem c24_markProcessed_releases_key_witness :
    canonicalize_url "http://books.toscrape.com/a".toList ∉ sampleHeld.processedUrls
    ∧ mapFind "http://books.toscrape.com/a".toList sampleHeld.assignedUrls = some 1
    ∧ canonicalize_url "http://books.toscrape.com/a".toList
      ∈ (markProcessed "http://books.toscrape.com/a".toList sampleHeld).processedUrls
    ∧ mapFind "http://books.toscrape.com/a".toList
        (markProcessed "http://books.toscrape.com/a".toList sampleHeld).assignedUrls = none :=
  ⟨by decide, by decide,
    (c24_markProcessed_releases_key sampleHeld "http://books.toscrape.com/a".toList
      (by decide)).1,
    (c24_markProcessed_releases_key sampleHeld "http://books.toscrape.com/a".toList
      (by decide)).2.1⟩

/-! ## C25: `fixMalformedUrl` -/

/-- C25 fails for every input it speaks of: on `http://books.toscrape.com`
followed by a text `r` that begins with `http`, `fixMalformedUrl` skips 24
characters of the 25 of the duplicated prefix and returns `m` followed by `r`;
for `r = http://books.toscrape.com/a` it returns
`mhttp://books.toscrape.com/a`. -/
theorem c25_repair_leaves_m :
    (∀ t : Str,
      fixMalformedUrl ("http://books.toscrape.com".toList ++ ("http".toList ++ t))
        = 'm' :: ("http".toList ++ t))
    ∧ "http://books.toscrape.com".toList.length = 25
    ∧ fixMalformedUrl "http://books.toscrape.comhttp://books.toscrape.com/a".toList
        = "mhttp://books.toscrape.com/a".toList := by
  refine ⟨fun t => ?_, by decide, by decide⟩
  have h : strFind "http://books.toscrape.comhttp".toList
      ("http://books.toscrape.com".toList ++ ("http".toList ++ t)) = some 0 := by
    rw [strFind_zero_iff]
    simp [List.isPrefixOf]
  unfold fixMalformedUrl
  rw [h]
  rfl

/-! ## C26: `hasUrlBeenProcessed` -/

theorem fieldOr_fromBook_price (b : Book) (other : Str) :
    fieldOr (Item.fromBook b).fields "price_original".toList other = b.price := by
  simp [fieldOr, Item.fromBook]

theorem fieldOr_fromBook_rating (b : Book) (other : Str) :
    fieldOr (Item.fromBook b).fields "rating_original".toList other = b.rating := by
  simp [fieldOr, Item.fromBook]

theorem bookRating_cases (rating : Str) :
    (bookRating rating = 1 ↔ rating = "One".toList)
    ∧ (bookRating rating = 2 ↔ rating = "Two".toList)
    ∧ (bookRating rating = 3 ↔ rating = "Three".toList)
    ∧ (bookRating rating = 4 ↔ rating = "Four".toList)
    ∧ (bookRating rating = 5 ↔ rating = "Five".toList)
    ∧ (bookRating rating = 0 ↔
        rating ∉ ["One".toList, "Two".toList, "Three".toList, "Four".toList, "Five".toList]) := by
  unfold bookRating
  by_cases h1 : rating = "One".toList
  · subst h1; decide
  by_cases h2 : rating = "Two".toList
  · subst h2; decide
  by_cases h3 : rating = "Three".toList
  · subst h3; decide
  by_cases h4 : rating = "Four".toList
  · subst h4; decide
  by_cases h5 : rating = "Five".toList
  · subst h5; decide
  rw [if_neg h1, if_neg h2, if_neg h3, if_neg h4, if_neg h5]
  refine ⟨⟨fun h => absurd h (by decide), fun h => absurd h h1⟩,
    ⟨fun h => absurd h (by decide), fun h => absurd h h2⟩,
    ⟨fun h => absurd h (by decide), fun h => absurd h h3⟩,
    ⟨fun h => absurd h (by decide), fun h => absurd h h4⟩,
    ⟨fun h => absurd h (by decide), fun h => absurd h h5⟩,
    ⟨fun _ => ?_, fun _ => rfl⟩⟩
  intro hmem
  simp only [List.mem_cons, List.mem_singleton, List.not_mem_nil, or_false] at hmem
  rcases hmem with h | h | h | h | h
  · exact h1 h
  · exact h2 h
  · exact h3 h
  · exact h4 h
  · exact h5 h

/-- C27: for every book `b`, `Item::fromBook(b)` has type `BOOK` and the title
and URL of `b`; its rating is 1, 2, 3, 4 or 5 exactly when `b.rating` is
`One`, `Two`, `Three`, `Four` or `Five`, and 0 exactly when it is none of
them, so it lies in 0..5; its fields `price_original` and `rating_original`
hold the price and rating strings of `b` as they are. For the book with
rating `Three` and price `£10.00` the rating is 3 and `price_original` is
`£10.00`. -/
theorem c27_fromBook :
    (∀ b : Book,
      (Item.fromBook b).type = ItemType.BOOK
      ∧ (Item.fromBook b).title = b.title
      ∧ (Item.fromBook b).url = b.url
      ∧ ((Item.fromBook b).rating = 1 ↔ b.rating = "One".toList)
      ∧ ((Item.fromBook b).rating = 2 ↔ b.rating = "Two".toList)
      ∧ ((Item.fromBook b).rating = 3 ↔ b.rating = "Three".toList)
      ∧ ((Item.fromBook b).rating = 4 ↔ b.rating = "Four".toList)
      ∧ ((Item.fromBook b).rating = 5 ↔ b.rating = "Five".toList)
      ∧ ((Item.fromBook b).rating = 0 ↔
          b.rating ∉ ["One".toList, "Two".toList, "Three".toList, "Four".toList,
            "Five".toList])
      ∧ 0 ≤ (Item.fromBook b).rating ∧ (Item.fromBook b).rating ≤ 5
      ∧ (Item.fromBook b).fields.map Prod.fst
          = ["price_original".toList, "rating_original".toList]
      ∧ (∀ other, fieldOr (Item.fromBook b).fields "price_original".toList other = b.price)
      ∧ (∀ other, fieldOr (Item.fromBook b).fields "rating_original".toList other
          = b.rating))
    ∧ sampleBookTen.rating = "Three".toList
    ∧ (Item.fromBook sampleBookTen).rating = 3
    ∧ fieldOr (Item.fromBook sampleBookTen).fields "price_original".toList []
        = "£10.00".toList := by
  refine ⟨fun b => ?_, by decide, by decide, by decide⟩
  have hr : (Item.fromBook b).rating = bookRating b.rating := rfl
  have hc := bookRating_cases b.rating
  refine ⟨rfl, rfl, rfl, ?_, ?_, ?_, ?_, ?_, ?_, ?_, ?_, rfl,
    fieldOr_fromBook_price b, fieldOr_fromBook_rating b⟩
  · rw [hr]; exact hc.1
  · rw [hr]; exact hc.2.1
  · rw [hr]; exact hc.2.2.1
  · rw [hr]; exact hc.2.2.2.1
  · rw [hr]; exact hc.2.2.2.2.1
  · rw [hr]; exact hc.2.2.2.2.2
  · rw [hr]; unfold bookRating; split_ifs <;> decide
  · rw [hr]; unfold bookRating; split_ifs <;> decide

/-! ## C28: `addUrls` and repeated `addUrl` -/

theorem addUrlsStep_counts (acc : UrlQueueManager × Nat × Nat) (url : Str) :
    (addUrlsStep acc url).2.1 + (addUrlsStep acc url).2.2 = acc.2.1 + acc.2.2 + 1
    ∧ (addUrlsStep acc url).1.urlQueue.length + acc.2.1
        = acc.1.urlQueue.length + (addUrlsStep acc url).2.1 := by
  unfold addUrlsStep
  simp only
  split
  · exact ⟨by simp only []; omega, rfl⟩
  · split
    · exact ⟨by simp only []; omega, rfl⟩
    · refine ⟨by simp only []; omega, ?_⟩
      simp only [List.length_append, List.length_singleton]
      omega

theorem foldl_addUrlsStep_counts (urls : List Str) (acc : UrlQueueManager × Nat × Nat) :
    (urls.foldl addUrlsStep acc).2.1 + (urls.foldl addUrlsStep acc).2.2
        = acc.2.1 + acc.2.2 + urls.length
    ∧ (urls.foldl addUrlsStep acc).1.urlQueue.length + acc.2.1
        = acc.1.urlQueue.length + (urls.foldl addUrlsStep acc).2.1 := by
  induction urls generalizing acc with
  | nil => simp
  | cons u us ih =>
    simp only [List.foldl_cons, List.length_cons]
    have h1 := ih (addUrlsStep acc u)
    have h2 := addUrlsStep_counts acc u
    omega

/-- C28: for every manager and every list of URLs, `addUrls(list)` leaves the
manager, hence `urlQueue`, `queuedUrls`, `assignedUrls` and `processedUrls`,
exactly as calling `addUrl` on each element in order does; the added and the
skipped count sum to the length of the list, and `urlQueue` is longer by
exactly the added count. -/
theorem c28_addUrls_is_repeated_addUrl (urls : List Str) (m : UrlQueueManager) :
    addUrls urls m = urls.foldl (fun acc url => addUrl url acc) m
    ∧ (addUrls urls m).urlQueue = (urls.foldl (fun acc url => addUrl url acc) m).urlQueue
    ∧ (addUrls urls m).queuedUrls = (urls.foldl (fun acc url => addUrl url acc) m).queuedUrls
    ∧ (addUrls urls m).assignedUrls
        = (urls.foldl (fun acc url => addUrl url acc) m).assignedUrls
    ∧ (addUrls urls m).processedUrls
        = (urls.foldl (fun acc url => addUrl url acc) m).processedUrls
    ∧ (addUrlsCounted urls m).1 = addUrls urls m
    ∧ (addUrlsCounted urls m).2.1 + (addUrlsCounted urls m).2.2 = urls.length
    ∧ (addUrls urls m).urlQueue.length
        = m.urlQueue.length + (addUrlsCounted urls m).2.1 := by
  have h := addUrls_eq_foldl urls m
  have hc := foldl_addUrlsStep_counts urls (m, 0, 0)
  refine ⟨h, by rw [h], by rw [h], by rw [h], by rw [h], rfl, ?_, ?_⟩
  · have := hc.1
    simpa [addUrlsCounted] using this
  · have := hc.2
    simpa [addUrls, addUrlsCounted] using this

/-! ## C29: queued and processed stay disjoint -/

theorem disjoint_resetCollectedData (m : UrlQueueManager) :
    QueuedProcessedDisjoint (resetCollectedData m) := by
  intro c hc
  simp [resetCollectedData] at hc

theorem disjoint_engine_apply (op : EngineOp) (m : UrlQueueManager)
    (h : QueuedProcessedDisjoint m) : QueuedProcessedDisjoint (op.apply m) := by
  cases op with
  | queue op => exact disjoint_apply op m h
  | resetCollectedData => exact disjoint_resetCollectedData m

theorem disjoint_runEngineOps (ops : List EngineOp) (m : UrlQueueManager)
    (h : QueuedProcessedDisjoint m) : QueuedProcessedDisjoint (runEngineOps ops m) := by
  induction ops generalizing m with
  | nil => exact h
  | cons op ops ih => exact ih _ (disjoint_engine_apply op m h)

/-- C29: after any finite sequence of `setSeedUrl`, `resetCollectedData`,
`addSeedUrl`, `addUrl`, `addUrls`, `getNextUrl`, `markProcessed` and
`reassignUrlsFromWorker` calls on a manager constructed with an empty
frontier, `queuedUrls` and `processedUrls` have no element in common. -/
theorem c29_queued_processed_disjoint (host start : Str) (ops : List EngineOp) :
    List.Disjoint (runEngineOps ops (UrlQueueManager.new host start)).queuedUrls
      (runEngineOps ops (UrlQueueManager.new host start)).processedUrls :=
  fun c hq hp => disjoint_runEngineOps ops _ (disjoint_new host start) c hq hp

/-! ## C30: books and items stay in step -/

/-- The two collections are in step: there are as many books as items of type
`BOOK`. -/
theorem inStep_addBook (book : Book) (m : UrlQueueManager)
    (h : m.collectedBooks.length = (bookItems m).length) :
    (addBook book m).collectedBooks.length = (bookItems (addBook book m)).length := by
  unfold addBook
  split
  · exact h
  · simp only [bookItems, List.length_append, List.length_singleton, List.filter_append]
    simp only [bookItems] at h
    rw [h]
    simp [Item.fromBook]

theorem inStep_addItem (fmt : Rat → Str) (item : Item) (m : UrlQueueManager)
    (h : m.collectedBooks.length = (bookItems m).length) :
    (addItem fmt item m).collectedBooks.length
      = (bookItems (addItem fmt item m)).length := by
  unfold addItem
  split
  · exact h
  · split
    · rename_i ht
      simp only [bookItems, List.length_append, List.length_singleton, List.filter_append]
      simp only [bookItems] at h
      rw [h]
      simp [ht]
    · rename_i ht
      simp only [bookItems, List.filter_append]
      simp only [bookItems] at h
      rw [h]
      simp [ht]

theorem inStep_apply (fmt : Rat → Str) (op : CollectionOp) (m : UrlQueueManager)
    (h : m.collectedBooks.length = (bookItems m).length) :
    (op.apply fmt m).collectedBooks.length = (bookItems (op.apply fmt m)).length := by
  cases op with
  | addBook book => exact inStep_addBook book m h
  | addItem item => exact inStep_addItem fmt item m h
  | setSeedUrl url => rfl
  | resetCollectedData => rfl

theorem inStep_runCollectionOps (fmt : Rat → Str) (ops : List CollectionOp)
    (m : UrlQueueManager) (h : m.collectedBooks.length = (bookItems m).length) :
    (runCollectionOps fmt ops m).collectedBooks.length
      = (bookItems (runCollectionOps fmt ops m)).length := by
  induction ops generalizing m with
  | nil => exact h
  | cons op ops ih => exact ih _ (inStep_apply fmt op m h)

/-- C30: after any finite sequence of `addBook`, `addItem`, `setSeedUrl` and
`resetCollectedData` calls on a manager constructed with empty collections,
`collectedBooks` has as many entries as `collectedItems` has entries of type
`BOOK`, so `books_found` is at most `items_found`. -/
theorem c30_books_items_in_step (fmt : Rat → Str) (host start : Str)
    (ops : List CollectionOp) :
    (runCollectionOps fmt ops (UrlQueueManager.new host start)).collectedBooks.length
      = ((runCollectionOps fmt ops (UrlQueueManager.new host start)).collectedItems.filter
          (fun i => i.type = ItemType.BOOK)).length
    ∧ getBookCount (runCollectionOps fmt ops (UrlQueueManager.new host start))
      ≤ getItemCount (runCollectionOps fmt ops (UrlQueueManager.new host start)) := by
  have h := inStep_runCollectionOps fmt ops (UrlQueueManager.new host start) rfl
  refine ⟨h, ?_⟩
  unfold getBookCount getItemCount
  rw [h]
  exact List.length_filter_le _ _

end Crawler
